import Mathlib

/-!
# Coverage reporter: profile merging, statistics and variant selection

A shallow embedding of `experiments/scripts/coverage_reporter.go` and of
`coverage_reporter.go`.

Conventions of the embedding.

* A Go `string` is a `List Char` (valid UTF-8 text); its length in bytes is `byteLen`.
* The file system is read through a function from paths to file contents
  (`none`: the file cannot be opened).  Reads of an opened file and writes to a
  created file do not fail, and the destination of a merge is not one of its
  sources.
* Go `int` is 64 bits wide: sums are reduced with `wrapInt`.
* A `float64` is a rational number, an infinity or NaN, and every operation
  rounds its exact result to the nearest value of 53 bits, ties to even.
* `sort.Slice`, `filepath.Join`, `filepath.Glob`, `os.Stat`, `os.ReadDir` and the
  run of `go test` are parameters of the functions that call them.
* Logging has no effect on results and is left out.
-/

namespace CoverageReporter

/-- A Go string. -/
abbrev GoString := List Char

/-- A file system path. -/
abbrev Path := List Char

/-- The files that can be opened, with their contents. -/
abbrev FileSystem := Path → Option GoString

/-! ## Library functions used by the program -/

/-- Length in bytes of the UTF-8 encoding, Go's `len(s)`. -/
def byteLen (s : GoString) : Nat :=
  (s.map Char.utf8Size).sum

/-- Go's `unicode.IsSpace`. -/
def isSpace (c : Char) : Bool :=
  let n := c.toNat
  (9 ≤ n && n ≤ 13) || n == 32 || n == 0x85 || n == 0xA0 || n == 0x1680 ||
    (0x2000 ≤ n && n ≤ 0x200A) || n == 0x2028 || n == 0x2029 || n == 0x202F ||
    n == 0x205F || n == 0x3000

/-- Worker of `fields`: `cur` is the field being read. -/
def fieldsAux : GoString → GoString → List GoString
  | [], cur => if cur.isEmpty then [] else [cur]
  | c :: cs, cur =>
    if isSpace c then
      (if cur.isEmpty then fieldsAux cs [] else cur :: fieldsAux cs [])
    else fieldsAux cs (cur ++ [c])

/-- Go's `strings.Fields`: the maximal runs of non-space characters. -/
def fields (s : GoString) : List GoString :=
  fieldsAux s []

/-- Go's `strings.HasPrefix`. -/
def hasPrefix (s pre : GoString) : Bool :=
  pre.isPrefixOf s

/-- Go's `strings.TrimPrefix`. -/
def trimPrefix (s pre : GoString) : GoString :=
  if hasPrefix s pre then s.drop pre.length else s

/-- Go's `strings.TrimSpace`. -/
def trimSpace (s : GoString) : GoString :=
  ((s.dropWhile isSpace).reverse.dropWhile isSpace).reverse

/-- Go's `strings.HasSuffix`. -/
def hasSuffix (s suf : GoString) : Bool :=
  suf.isSuffixOf s

/-- Go's `strings.TrimSuffix`. -/
def trimSuffix (s suf : GoString) : GoString :=
  if hasSuffix s suf then s.take (s.length - suf.length) else s

/-! ### `bufio.Scanner` with the default line splitter -/

/-- The constant `bufio.MaxScanTokenSize`. -/
def maxScanTokenSize : Nat := 64 * 1024

/-- The pieces of a file between line feeds; a last piece without line feed
is a line when it is not empty. -/
def splitLinesAux : GoString → GoString → List GoString
  | [], cur => if cur.isEmpty then [] else [cur]
  | c :: cs, cur =>
    if c = '\n' then cur :: splitLinesAux cs [] else splitLinesAux cs (cur ++ [c])

/-- The helper `dropCR` of `bufio.ScanLines`: one trailing carriage return is dropped. -/
def dropCR (l : GoString) : GoString :=
  if l.getLast? = some '\r' then l.dropLast else l

/-- The longest prefix of at most `n` bytes. -/
def takeBytes : Nat → GoString → GoString
  | _, [] => []
  | n, c :: cs => if c.utf8Size ≤ n then c :: takeBytes (n - c.utf8Size) cs else []

/-- What a `bufio.Scanner` delivers. `lines` are the tokens of the calls of
`Scan` that returned true, up to the first call that returned false. `tooLong`
is set when that call failed with `bufio.ErrTooLong` (then `scanner.Err()` is not
nil): it holds the buffered text, which a further call of `Scan` hands out as
one more token. -/
structure Scanned where
  lines : List GoString
  tooLong : Option GoString
deriving DecidableEq, Repr

/-- Tokens from the raw lines: a raw line of `maxScanTokenSize` bytes or more
does not fit the buffer with its line feed and stops the scanner. -/
def scanTokens : List GoString → Scanned
  | [] => ⟨[], none⟩
  | raw :: rest =>
    if maxScanTokenSize ≤ byteLen raw then ⟨[], some (dropCR (takeBytes maxScanTokenSize raw))⟩
    else ⟨dropCR raw :: (scanTokens rest).lines, (scanTokens rest).tooLong⟩

/-- A `bufio.Scanner` run over a whole file. -/
def scan (content : GoString) : Scanned :=
  scanTokens (splitLinesAux content [])

/-- The tokens seen by a `for scanner.Scan()` loop that follows one earlier
call of `Scan`: the tail of the lines, or, when that first call already failed
with `bufio.ErrTooLong`, the buffered text. -/
def linesAfterFirst (sc : Scanned) : List GoString :=
  match sc.lines with
  | [] => (match sc.tooLong with
    | some b => [b]
    | none => [])
  | _ :: rest => rest

/-! ### Integer parsing -/

/-- An ASCII decimal digit. -/
def isDigit (c : Char) : Bool :=
  48 ≤ c.toNat && c.toNat ≤ 57

/-- The value of a run of decimal digits. -/
def digitsValue (ds : GoString) : Nat :=
  ds.foldl (fun n c => 10 * n + (c.toNat - 48)) 0

/-- Go's `strconv.ParseInt(s, 10, 64)`: an optional sign, then one or more
decimal digits, with a value in the range of `int64`. -/
def parseInt (s : GoString) : Option Int :=
  match s with
  | [] => none
  | c :: rest =>
    let neg := c == '-'
    let ds := if c == '+' || c == '-' then rest else s
    if ds.isEmpty || !ds.all isDigit then none
    else
      let un := digitsValue ds
      if neg then (if un ≤ 2 ^ 63 then some (-(un : Int)) else none)
      else (if un < 2 ^ 63 then some (un : Int) else none)

/-- Go's `strconv.Atoi` on a 64-bit platform. -/
def atoi (s : GoString) : Option Int :=
  parseInt s

/-- Go's `fmt.Sscanf(tok, "%d", &x)` on a token without white space: `some v`
when it returns no error and stores `v`, `none` when it returns an error and
leaves `x` untouched. One sign is accepted, then the longest run of decimal
digits, which must not be empty and which `strconv.ParseInt` must accept (it
fails on a value outside `int64`); the text after that run is left unread. -/
def sscanfInt (tok : GoString) : Option Int :=
  let signed := match tok with
    | c :: _ => c == '+' || c == '-'
    | [] => false
  let body := if signed then tok.drop 1 else tok
  let num := body.takeWhile isDigit
  if num.isEmpty then none
  else parseInt (if signed then tok.take 1 ++ num else num)

/-- Two's complement reduction of an integer to Go's 64-bit `int`. -/
def wrapInt (x : Int) : Int :=
  (x + 2 ^ 63) % 2 ^ 64 - 2 ^ 63

/-! ## `mergeCoverageProfiles` -/

/-- The header prefix of a coverage profile. -/
def modePrefix : GoString := "mode:".toList

/-- The coverage mode named by a header line. -/
def modeOf (line : GoString) : GoString :=
  trimSpace (trimPrefix line modePrefix)

/-- The local variables of `mergeCoverageProfiles` with the text handed to the writer. -/
structure MergeState where
  coverageMode : GoString
  headerWritten : Bool
  out : GoString
deriving DecidableEq, Repr

/-- The inner loop of `mergeCoverageProfiles` over the lines of one profile. -/
def mergeLines : List GoString → MergeState → MergeState
  | [], st => st
  | line :: rest, st =>
    if hasPrefix line modePrefix then
      if !st.headerWritten then
        mergeLines rest
          { coverageMode := modeOf line, headerWritten := true, out := st.out ++ (line ++ ['\n']) }
      else if modeOf line ≠ st.coverageMode then st
      else mergeLines rest st
    else mergeLines rest { st with out := st.out ++ (line ++ ['\n']) }

/-- The outer loop of `mergeCoverageProfiles`: a profile that cannot be opened is skipped. -/
def mergeProfiles (fs : FileSystem) : List Path → MergeState → MergeState
  | [], st => st
  | profile :: rest, st =>
    match fs profile with
    | none => mergeProfiles fs rest st
    | some content => mergeProfiles fs rest (mergeLines (scan content).lines st)

/-- The errors returned by `mergeCoverageProfiles`. -/
inductive MergeError where
  | noProfiles
  | createFailed
deriving DecidableEq, Repr

/-- The outcome of `mergeCoverageProfiles`: the error returned, whether the
destination was created, and the text written to it. -/
structure MergeResult where
  err : Option MergeError
  created : Bool
  written : GoString
deriving DecidableEq, Repr

/-- The function `mergeCoverageProfiles`; `canCreate` tells whether `os.Create` succeeds. -/
def mergeCoverageProfiles (fs : FileSystem) (canCreate : Path → Bool)
    (profiles : List Path) (mergedProfile : Path) : MergeResult :=
  if profiles.isEmpty then ⟨some .noProfiles, false, []⟩
  else if !canCreate mergedProfile then ⟨some .createFailed, false, []⟩
  else ⟨none, true, (mergeProfiles fs profiles ⟨[], false, []⟩).out⟩


/-! ## Coverage statistics -/

/-- The counters `totalStatements` and `coveredStatements`. -/
structure Stats where
  totalStatements : Int
  coveredStatements : Int
deriving DecidableEq, Repr

/-- The body of the loop of `displayCoverageStatistics` (the same text in both
programs). The results of `fmt.Sscanf` are not checked: a count that cannot be
read stays at its initial value 0. -/
def statsStep (st : Stats) (line : GoString) : Stats :=
  match fields line with
  | _ :: p1 :: p2 :: _ =>
    let stmtCount := (sscanfInt p1).getD 0
    let total := wrapInt (st.totalStatements + stmtCount)
    let execCount := (sscanfInt p2).getD 0
    if execCount > 0 then ⟨total, wrapInt (st.coveredStatements + stmtCount)⟩
    else ⟨total, st.coveredStatements⟩
  | _ => st

/-! ### `float64` -/

/-- A value of Go's `float64`: a finite number, an infinity or NaN. Zero
carries no sign here: the one division of the program has a positive divisor
that comes from an `int`, so that no negative zero arises. -/
inductive Float64 where
  | finite (value : ℚ)
  | inf (negative : Bool)
  | nan
deriving DecidableEq

/-- The nearest integer, the even one of two that are equally near. -/
def roundHalfEven (y : ℚ) : ℤ :=
  if y - ⌊y⌋ < 1 / 2 then ⌊y⌋
  else if 1 / 2 < y - ⌊y⌋ then ⌊y⌋ + 1
  else if ⌊y⌋ % 2 = 0 then ⌊y⌋ else ⌊y⌋ + 1

/-- The `float64` nearest to a real number (IEEE 754 binary64, round to
nearest, ties to even): 53 significant bits, the spacing never below
`2 ^ (-1074)`, and infinity from `2 ^ 1024` on. -/
def roundFloat64 (x : ℚ) : Float64 :=
  if x = 0 then .finite 0
  else if 2 ^ (1024 : ℤ) ≤
      |(roundHalfEven (x / 2 ^ max (Int.log 2 |x| - 52) (-1074)) : ℚ) *
        2 ^ max (Int.log 2 |x| - 52) (-1074)| then
    .inf (decide (x < 0))
  else
    .finite ((roundHalfEven (x / 2 ^ max (Int.log 2 |x| - 52) (-1074)) : ℚ) *
      2 ^ max (Int.log 2 |x| - 52) (-1074))

/-- The conversion `float64(i)` of an `int`. -/
def Float64.ofInt (i : Int) : Float64 :=
  roundFloat64 i

/-- The division of two `float64`. -/
def Float64.div : Float64 → Float64 → Float64
  | .finite a, .finite b =>
    if b = 0 then (if a = 0 then .nan else .inf (decide (a < 0))) else roundFloat64 (a / b)
  | .finite _, .inf _ => .finite 0
  | .inf s, .finite b => .inf (s != decide (b < 0))
  | _, _ => .nan

/-- The product of two `float64`. -/
def Float64.mul : Float64 → Float64 → Float64
  | .finite a, .finite b => roundFloat64 (a * b)
  | .finite a, .inf t => if a = 0 then .nan else .inf (decide (a < 0) != t)
  | .inf s, .finite b => if b = 0 then .nan else .inf (s != decide (b < 0))
  | .inf s, .inf t => .inf (s != t)
  | _, _ => .nan

/-- The final computation of both functions:
`(float64(coveredStatements) / float64(totalStatements)) * 100` under the
guard `totalStatements > 0`, else `0.0`. -/
def coveragePercentage (totalStatements coveredStatements : Int) : Float64 :=
  if totalStatements > 0 then
    Float64.mul (Float64.div (Float64.ofInt coveredStatements) (Float64.ofInt totalStatements))
      (.finite 100)
  else .finite 0

/-- The errors of the functions that read a profile. -/
inductive StatsError where
  | openFailed
  | readFailed
  | parseStatementCount
  | parseExecutionCount
deriving DecidableEq, Repr

/-- The three values printed by `displayCoverageStatistics`. -/
structure Report where
  totalStatements : Int
  coveredStatements : Int
  coveragePercentage : Float64
deriving DecidableEq

/-- The function `displayCoverageStatistics` of `experiments/scripts/coverage_reporter.go`;
the result holds the values it prints. -/
def displayCoverageStatistics (fs : FileSystem) (mergedProfile : Path) :
    Except StatsError Report :=
  match fs mergedProfile with
  | none => .error .openFailed
  | some content =>
    let sc := scan content
    let st := (linesAfterFirst sc).foldl statsStep ⟨0, 0⟩
    if sc.tooLong.isSome then .error .readFailed
    else .ok ⟨st.totalStatements, st.coveredStatements,
      coveragePercentage st.totalStatements st.coveredStatements⟩

/-- The body of the loop of `calculateCoveragePercentage`: here a count that
cannot be read ends the function with an error. -/
def calcStep (st : Stats) (line : GoString) : Except StatsError Stats :=
  match fields line with
  | _ :: p1 :: p2 :: _ =>
    match sscanfInt p1 with
    | none => .error .parseStatementCount
    | some stmtCount =>
      let total := wrapInt (st.totalStatements + stmtCount)
      match sscanfInt p2 with
      | none => .error .parseExecutionCount
      | some execCount =>
        if execCount > 0 then .ok ⟨total, wrapInt (st.coveredStatements + stmtCount)⟩
        else .ok ⟨total, st.coveredStatements⟩
  | _ => .ok st

/-- The loop of `calculateCoveragePercentage`. -/
def calcLoop : List GoString → Stats → Except StatsError Stats
  | [], st => .ok st
  | line :: rest, st =>
    match calcStep st line with
    | .error e => .error e
    | .ok st1 => calcLoop rest st1

/-- The function `calculateCoveragePercentage`. -/
def calculateCoveragePercentage (fs : FileSystem) (coverageProfile : Path) :
    Except StatsError Float64 :=
  match fs coverageProfile with
  | none => .error .openFailed
  | some content =>
    let sc := scan content
    match calcLoop (linesAfterFirst sc) ⟨0, 0⟩ with
    | .error e => .error e
    | .ok st =>
      if sc.tooLong.isSome then .error .readFailed
      else .ok (coveragePercentage st.totalStatements st.coveredStatements)

/-! ### The program `coverage_reporter.go` -/

namespace Project

/-- The structure `Configuration` of `coverage_reporter.go`. -/
structure Configuration where
  TargetProjectPath : Path
  TestDir : Path
  ReportDir : Path
deriving DecidableEq, Repr

/-- The function `displayCoverageStatistics` of `coverage_reporter.go`; the
configuration is not used. -/
def displayCoverageStatistics (fs : FileSystem) (coverageFile : Path)
    (_config : Configuration) : Except StatsError Report :=
  match fs coverageFile with
  | none => .error .openFailed
  | some content =>
    let sc := scan content
    let st := (linesAfterFirst sc).foldl statsStep ⟨0, 0⟩
    if sc.tooLong.isSome then .error .readFailed
    else .ok ⟨st.totalStatements, st.coveredStatements,
      coveragePercentage st.totalStatements st.coveredStatements⟩

end Project

/-! ### The statistics in the words of the specification -/

/-- The statement count and execution count of a record: a line with at least
three fields whose second and third fields are read as integers. -/
def recordOf (line : GoString) : Option (Int × Int) :=
  match fields line with
  | _ :: p1 :: p2 :: _ =>
    match sscanfInt p1, sscanfInt p2 with
    | some s, some e => some (s, e)
    | _, _ => none
  | _ => none

/-- A line with at least three fields. -/
def hasThreeFields (line : GoString) : Bool :=
  3 ≤ (fields line).length

/-- The sum of the statement counts of the records among the lines. -/
def sumStatements (ls : List GoString) : Int :=
  ((ls.filterMap recordOf).map (fun r => r.1)).sum

/-- The sum of the statement counts of the records executed at least once. -/
def sumCovered (ls : List GoString) : Int :=
  (((ls.filterMap recordOf).filter (fun r => decide (0 < r.2))).map (fun r => r.1)).sum

/-- A line with at least three fields whose statement count cannot be read. -/
def badStatementCount (line : GoString) : Bool :=
  match fields line with
  | _ :: p1 :: _ :: _ => (sscanfInt p1).isNone
  | _ => false

/-- A line with at least three fields whose execution count cannot be read. -/
def badExecutionCount (line : GoString) : Bool :=
  match fields line with
  | _ :: _ :: p2 :: _ => (sscanfInt p2).isNone
  | _ => false

/-- What a line adds to `totalStatements` in `displayCoverageStatistics`. -/
def lineStatements (line : GoString) : Int :=
  match fields line with
  | _ :: p1 :: _ :: _ => (sscanfInt p1).getD 0
  | _ => 0

/-- What a line adds to `coveredStatements` in `displayCoverageStatistics`. -/
def lineCovered (line : GoString) : Int :=
  match fields line with
  | _ :: p1 :: p2 :: _ => if (sscanfInt p2).getD 0 > 0 then (sscanfInt p1).getD 0 else 0
  | _ => 0

/-- The values of Go's 64-bit `int`. -/
def InIntRange (x : Int) : Prop :=
  -(2 ^ 63) ≤ x ∧ x < 2 ^ 63

instance (x : Int) : Decidable (InIntRange x) := by
  unfold InIntRange
  infer_instance

/-- The statement count of a line with at least three fields, when it can be read. -/
def statementCountOf (line : GoString) : Option Int :=
  match fields line with
  | _ :: p1 :: _ :: _ => sscanfInt p1
  | _ => none

/-- A line with at least three fields from whose third field `fmt.Sscanf`
reads an execution count above 0. -/
def executedLine (line : GoString) : Bool :=
  match fields line with
  | _ :: _ :: p2 :: _ => decide (0 < (sscanfInt p2).getD 0)
  | _ => false

/-- The sum of the statement counts that `fmt.Sscanf` reads from the lines
with at least three fields. -/
def sumRead (ls : List GoString) : Int :=
  (ls.filterMap statementCountOf).sum

/-- The sum of the statement counts that `fmt.Sscanf` reads from the lines
with at least three fields and an execution count read and above 0. -/
def sumReadExecuted (ls : List GoString) : Int :=
  ((ls.filter executedLine).filterMap statementCountOf).sum

/-! ## Paths -/

/-- Go's `filepath.Base` with the separator `/`: the last element of the path,
trailing separators removed. -/
def filepathBase (path : Path) : Path :=
  if path.isEmpty then ['.']
  else
    let last := ((path.reverse.dropWhile (fun c => c == '/')).takeWhile
      (fun c => c != '/')).reverse
    if last.isEmpty then ['/'] else last

/-- Go's `filepath.Ext`: the suffix of the last element that starts at its last dot. -/
def filepathExt (path : Path) : Path :=
  let lastRev := path.reverse.takeWhile (fun c => c != '/')
  if lastRev.contains '.' then (lastRev.takeWhile (fun c => c != '.') ++ ['.']).reverse
  else []

/-- The function passed to `strings.Map` in `sanitizeFilename`. -/
def sanitizeRune (r : Char) : Char :=
  if (97 ≤ r.toNat && r.toNat ≤ 122) || (65 ≤ r.toNat && r.toNat ≤ 90) ||
      (48 ≤ r.toNat && r.toNat ≤ 57) then r
  else '_'

/-- The function `sanitizeFilename`. -/
def sanitizeFilename (filePath : Path) : Path :=
  let base := filepathBase filePath
  let ext := filepathExt base
  let name := trimSuffix base ext
  name.map sanitizeRune ++ ext

/-- The file name `fmt.Sprintf("coverage_%s.out", sanitizeFilename(testFilePath))`. -/
def coverageProfileName (testFilePath : Path) : Path :=
  "coverage_".toList ++ sanitizeFilename testFilePath ++ ".out".toList

/-- The coverage profile path of a test file; `join` is `filepath.Join`. -/
def coverageProfilePath (join : Path → Path → Path) (reportDir testFilePath : Path) : Path :=
  join reportDir (coverageProfileName testFilePath)

/-- What `filepath.Join` gives for a clean directory path and a file name. -/
def joinPath (dir name : Path) : Path :=
  dir ++ '/' :: name

/-! ## `getSubdirectories` -/

/-- An error of the operating system. -/
abbrev OSError := GoString

/-- The integer by which `getSubdirectories` orders a directory. Only entries
whose name `strconv.Atoi` reads reach the comparison. -/
def dirKey (entry : Path) : Int :=
  (atoi (filepathBase entry)).getD 0

/-- The comparison passed to `sort.Slice`. -/
def dirLess (a b : Path) : Bool :=
  decide (dirKey a < dirKey b)

/-- The loop of `getSubdirectories` over the entries found by `filepath.Glob`:
`stat entry` is `none` when `os.Stat` fails and else tells whether the entry
is a directory. -/
def numericEntries (stat : Path → Option Bool) : List Path → List Path
  | [] => []
  | entry :: rest =>
    match stat entry with
    | none => numericEntries stat rest
    | some isDir =>
      if isDir && (atoi (filepathBase entry)).isSome then entry :: numericEntries stat rest
      else numericEntries stat rest

/-- The function `getSubdirectories`. `glob dirPath` is the result of
`filepath.Glob(filepath.Join(dirPath, "*"))` and `sortSlice` is `sort.Slice`. -/
def getSubdirectories (sortSlice : (Path → Path → Bool) → List Path → List Path)
    (glob : Path → Except OSError (List Path)) (stat : Path → Option Bool)
    (dirPath : Path) : Except OSError (List Path) :=
  match glob dirPath with
  | .error e => .error e
  | .ok entries => .ok (sortSlice dirLess (numericEntries stat entries))

/-- What the documentation of `sort.Slice` promises: the result is a
rearrangement of the slice, in ascending order when `less` compares integer keys. -/
structure SortSliceSpec (sortSlice : (Path → Path → Bool) → List Path → List Path) :
    Prop where
  perm : ∀ less l, (sortSlice less l).Perm l
  sorted : ∀ (key : Path → Int) l,
    (sortSlice (fun a b => decide (key a < key b)) l).Pairwise (fun a b => key a ≤ key b)

/-- One insertion of Go's insertion sort, on the sorted part held in reverse:
the new element moves down while it is less than its neighbour. -/
def insertDown (less : Path → Path → Bool) (x : Path) : List Path → List Path
  | [] => [x]
  | y :: ys => if less x y then y :: insertDown less x ys else x :: y :: ys

/-- The insertion sort that `sort.Slice` runs on a short slice. -/
def insertionSort (less : Path → Path → Bool) (l : List Path) : List Path :=
  (l.foldl (fun acc x => insertDown less x acc) []).reverse

/-! ## The work on one test suite -/

/-- The structure `Configuration` of `experiments/scripts/coverage_reporter.go`. -/
structure Configuration where
  TargetDir : Path
  ReportDir : Path
deriving DecidableEq, Repr

/-- The environment of the work on a suite. -/
structure World where
  /-- The result of `filepath.Glob(filepath.Join(dirPath, "*"))`. -/
  glob : Path → Except OSError (List Path)
  /-- Whether `os.Stat` finds a directory; `none` when it fails. -/
  stat : Path → Option Bool
  /-- The result of `os.ReadDir`: names, each with `IsDir()`. -/
  readDir : Path → Except OSError (List (Path × Bool))
  /-- Whether `go test`, run in a directory for a profile path, ends without error. -/
  goTest : Path → Path → Bool
  /-- The files that can be opened once the tests have run. -/
  files : FileSystem
  /-- The function `filepath.Join` on two elements. -/
  join : Path → Path → Path

/-- The function `findTestFile`. -/
def findTestFile (w : World) (dirPath : Path) : Except OSError Path :=
  match w.readDir dirPath with
  | .error e => .error e
  | .ok entries =>
    match entries.find? (fun e => !e.2 && hasSuffix e.1 "_test.go".toList) with
    | some e => .ok (w.join dirPath e.1)
    | none => .ok []

/-- The function `runTestWithCoverage`. -/
def runTestWithCoverage (w : World) (testDir coverageProfilePath : Path) : Except OSError Unit :=
  if w.goTest testDir coverageProfilePath then .ok () else .error "go test failed".toList

/-- The body of the goroutine started by `main` for one suite: `some path`
when it appends `path` to `coverageData.paths`, `none` when it returns
without appending. -/
def processSuite (sortSlice : (Path → Path → Bool) → List Path → List Path) (w : World)
    (config : Configuration) (suitePath : Path) : Option Path :=
  match getSubdirectories sortSlice w.glob w.stat suitePath with
  | .error _ => none
  | .ok numericDirs =>
    match numericDirs.getLast? with
    | none => none
    | some highestDir =>
      match findTestFile w highestDir with
      | .error _ => none
      | .ok testFilePath =>
        if testFilePath.isEmpty then none
        else
          let coverageProfile := coverageProfilePath w.join config.ReportDir testFilePath
          match runTestWithCoverage w highestDir coverageProfile with
          | .error _ => none
          | .ok _ =>
            match calculateCoveragePercentage w.files coverageProfile with
            | .error _ => none
            | .ok _ =>
              match w.files coverageProfile with
              | none => none
              | some content =>
                if byteLen content < 10 then none else some coverageProfile

/-! ## The text of the errors of `mergeCoverageProfiles` -/

/-- The message of an error of `mergeCoverageProfiles`, without the cause
that `fmt.Errorf` appends to the second. -/
def MergeError.text : MergeError → GoString
  | .noProfiles => "no coverage profiles to merge".toList
  | .createFailed => "unable to create merged coverage file".toList

/-! ## Statistics of the profiles given to a merge -/

/-- The lines after the first of a profile, as the scanner delivers them. -/
def recordsOf (fs : FileSystem) (p : Path) : List GoString :=
  match fs p with
  | some content => (scan content).lines.tail
  | none => []

/-- The records of a sequence of profiles, in order. -/
def allRecords (fs : FileSystem) : List Path → List GoString
  | [] => []
  | p :: ps => recordsOf fs p ++ allRecords fs ps

/-- A profile in mode `m`: it can be opened, the scanner reads it to its end,
its first line is a header that names `m`, and no other line starts with `mode:`. -/
def IsProfile (fs : FileSystem) (m : GoString) (p : Path) : Prop :=
  ∃ content hdr recs, fs p = some content ∧ scan content = ⟨hdr :: recs, none⟩ ∧
    hasPrefix hdr modePrefix = true ∧ modeOf hdr = m ∧
    ∀ l ∈ recs, hasPrefix l modePrefix = false

/-- The `totalStatements` that `displayCoverageStatistics` prints for a profile. -/
def totalOf (fs : FileSystem) (p : Path) : Int :=
  match displayCoverageStatistics fs p with
  | .ok r => r.totalStatements
  | .error _ => 0

/-- The `coveredStatements` that `displayCoverageStatistics` prints for a profile. -/
def coveredOf (fs : FileSystem) (p : Path) : Int :=
  match displayCoverageStatistics fs p with
  | .ok r => r.coveredStatements
  | .error _ => 0

/-! ## The bounded pool of goroutines

The loop of `main` in `experiments/scripts/coverage_reporter.go` and the loop
of `compileTestFiles` in `coverage_reporter.go` have the same shape:

    for _, item := range items {
        wg.Add(1)
        semaphore <- struct{}{}
        go func(item string) {
            defer wg.Done()
            defer func() { <-semaphore }()
            // the execution for the item, which returns on failure and on success
        }(item)
    }
    wg.Wait()

It is embedded as a transition system: a state of the driver and of the
goroutines, and one step for each statement that touches the semaphore or
the wait group. Any interleaving of the steps is a run. The execution of an
item is one step, `bodyReturns`, which is always possible and carries the
outcome. -/

/-- The list without the first occurrence of an element. -/
def removeFirst {α : Type} [DecidableEq α] (a : α) : List α → List α
  | [] => []
  | b :: l => if b = a then l else b :: removeFirst a l

/-- The capacity of the semaphore of `main`. -/
def runSemaphoreCapacity : Nat := 4

/-- The capacity of the semaphore of `compileTestFiles`. -/
def compileSemaphoreCapacity : Nat := 64

/-- Where the driver stands in the loop. -/
inductive Driver where
  /-- At the head of the `for` statement. -/
  | ranging
  /-- After `wg.Add(1)` for an item, before the send on the semaphore. -/
  | added (item : Path)
  /-- After `semaphore <- struct{}{}`, before the `go` statement. -/
  | acquired (item : Path)
  /-- In `wg.Wait()`. -/
  | waiting
  /-- Past `wg.Wait()`. -/
  | continued
deriving DecidableEq, Repr

/-- The state of the pool. -/
structure Pool where
  /-- The items the loop has not reached. -/
  pending : List Path
  driver : Driver
  /-- The number of elements in the buffered channel `semaphore`. -/
  semaphore : Nat
  /-- The counter of the wait group. -/
  wg : Nat
  /-- The goroutines whose execution is in flight. -/
  running : List Path
  /-- The goroutines whose execution has returned (`true`: without failure),
  before their deferred calls. -/
  returned : List (Path × Bool)
  /-- The goroutines past `<-semaphore`, before `wg.Done()`. -/
  released : List (Path × Bool)
  /-- The goroutines that have ended. -/
  finished : List (Path × Bool)
deriving DecidableEq, Repr

/-- The steps of the pool. -/
inductive Event where
  /-- The driver executes its next statement. -/
  | drive
  /-- The execution for an item returns, with or without failure. -/
  | bodyReturns (item : Path) (ok : Bool)
  /-- A goroutine runs its deferred `<-semaphore`. -/
  | release (item : Path) (ok : Bool)
  /-- A goroutine runs its deferred `wg.Done()`. -/
  | done (item : Path) (ok : Bool)
deriving DecidableEq, Repr

/-- The state before the loop. -/
def Pool.start (items : List Path) : Pool :=
  ⟨items, .ranging, 0, 0, [], [], [], []⟩

/-- One step: `none` when the statement cannot execute in this state (a send
on a full channel, a receive on an empty one and `wg.Wait()` with a counter
above 0 block). -/
def Pool.step (capacity : Nat) (s : Pool) : Event → Option Pool
  | .drive =>
    match s.driver with
    | .ranging =>
      match s.pending with
      | [] => some { s with driver := .waiting }
      | item :: rest => some { s with pending := rest, driver := .added item, wg := s.wg + 1 }
    | .added item =>
      if s.semaphore < capacity then
        some { s with driver := .acquired item, semaphore := s.semaphore + 1 }
      else none
    | .acquired item => some { s with driver := .ranging, running := s.running ++ [item] }
    | .waiting => if s.wg = 0 then some { s with driver := .continued } else none
    | .continued => none
  | .bodyReturns item ok =>
    if item ∈ s.running then
      some { s with running := removeFirst item s.running, returned := s.returned ++ [(item, ok)] }
    else none
  | .release item ok =>
    if (item, ok) ∈ s.returned ∧ 0 < s.semaphore then
      some { s with returned := removeFirst (item, ok) s.returned,
                    released := s.released ++ [(item, ok)],
                    semaphore := s.semaphore - 1 }
    else none
  | .done item ok =>
    if (item, ok) ∈ s.released ∧ 0 < s.wg then
      some { s with released := removeFirst (item, ok) s.released,
                    finished := s.finished ++ [(item, ok)],
                    wg := s.wg - 1 }
    else none

/-- A run: the steps of a schedule, one after the other. -/
def Pool.run (capacity : Nat) : Pool → List Event → Option Pool
  | s, [] => some s
  | s, e :: es =>
    match s.step capacity e with
    | none => none
    | some s1 => Pool.run capacity s1 es

/-- The item the driver holds between `wg.Add(1)` and the `go` statement. -/
def Driver.item : Driver → List Path
  | .added item => [item]
  | .acquired item => [item]
  | _ => []

/-- The token the driver holds between the send on the semaphore and the `go` statement. -/
def Driver.token : Driver → Nat
  | .acquired _ => 1
  | _ => 0

/-- What is left for the driver to do on the item it holds and after the loop. -/
def Driver.rank : Driver → Nat
  | .ranging => 2
  | .added _ => 7
  | .acquired _ => 6
  | .waiting => 1
  | .continued => 0

/-- The number of steps left before the driver continues. -/
def Pool.rank (s : Pool) : Nat :=
  6 * s.pending.length + s.driver.rank + 3 * s.running.length + 2 * s.returned.length +
    s.released.length

/-- What holds in every state of a run of the pool over `items`. -/
structure Pool.Inv (capacity : Nat) (items : List Path) (s : Pool) : Prop where
  /-- The elements of the channel are held by the executions that have not
  released and by the driver before its `go` statement. -/
  tokens : s.semaphore = s.running.length + s.returned.length + s.driver.token
  /-- The channel never holds more than its capacity. -/
  bound : s.semaphore ≤ capacity
  /-- The wait group counts the goroutines that have not called `wg.Done()`
  and the item the driver holds. -/
  counter : s.wg =
    s.running.length + s.returned.length + s.released.length + s.driver.item.length
  /-- Every item is in exactly one place. -/
  items : (↑(s.finished.map Prod.fst) : Multiset Path) + ↑(s.released.map Prod.fst) +
    ↑(s.returned.map Prod.fst) + ↑s.running + ↑s.driver.item + ↑s.pending = ↑items
  /-- The driver leaves the loop when no item is left. -/
  drained : s.driver = .waiting ∨ s.driver = .continued → s.pending = []
  /-- The driver continues when every goroutine has ended. -/
  ended : s.driver = .continued → s.running = [] ∧ s.returned = [] ∧ s.released = []

/-! ## Sample data -/

/-- The text of a line-oriented file: every line followed by a single line feed. -/
def renderLines : List GoString → GoString
  | [] => []
  | l :: ls => l ++ '\n' :: renderLines ls

/-- A profile in mode `set` with one record. -/
def sampleA : GoString := "mode: set\nf.go:1.1,2.2 3 1\n".toList

/-- A profile whose header names the mode `set` without a blank after the colon. -/
def sampleB : GoString := "mode:set\ng.go:1.1,2.2 5 0\n".toList

/-- A profile in mode `count`. -/
def sampleC : GoString := "mode: count\nh.go:1.1,2.2 7 2\n".toList

/-- A file system holding the three sample profiles. -/
def sampleFS : FileSystem := fun p =>
  if p = "a.out".toList then some sampleA
  else if p = "b.out".toList then some sampleB
  else if p = "c.out".toList then some sampleC
  else none

/-- Sample profiles for the statistics. -/
def statsFS : FileSystem := fun p =>
  if p = "two.out".toList then some "mode: atomic\nf.go:1.1,2.2 3 1\nf.go:3.1,4.2 5 0\n".toList
  else if p = "noheader.out".toList then some "f.go:1.1,2.2 3 1\nf.go:3.1,4.2 5 0\n".toList
  else if p = "badexec.out".toList then some "mode: set\nf.go:1.1,2.2 3 x\n".toList
  else if p = "headeronly.out".toList then some "mode: set\n".toList
  else if p = "negative.out".toList then some "mode: set\nf.go:1.1,2.2 -3 1\n".toList
  else if p = "badstmt.out".toList then
    some "mode: set\nf.go:1.1,2.2 x 1\ng.go:1.1,2.2 3 1\nh.go:1.1,2.2 4 y\n".toList
  else if p = "badstmt_removed.out".toList then
    some "mode: set\ng.go:1.1,2.2 3 1\nh.go:1.1,2.2 4 y\n".toList
  else if p = "short.out".toList then some "mode: set\n\nf.go:1.1,2.2 3\n".toList
  else none

/-- Sample profiles with a total of 25 statements of which 7 are covered, and
with a statement count followed by letters. -/
def roundingFS : FileSystem := fun p =>
  if p = "seven.out".toList then
    some "mode: set\nf.go:1.1,2.2 7 1\nf.go:3.1,4.2 18 0\n".toList
  else if p = "suffix.out".toList then some "mode: set\nf.go:1.1,2.2 3abc 1\n".toList
  else none

/-- A configuration of the program `coverage_reporter.go`. -/
def sampleConfig : Project.Configuration :=
  ⟨"proj".toList, "tests".toList, "tests-report".toList⟩

/-- A suite with the subdirectories `10`, `2`, `3` and `abc`, as `filepath.Glob` lists them. -/
def variantWorld : World where
  glob := fun d =>
    if d = "suite".toList then
      .ok ["suite/10".toList, "suite/2".toList, "suite/3".toList, "suite/abc".toList]
    else .ok []
  stat := fun _ => some true
  readDir := fun _ => .ok []
  goTest := fun _ _ => false
  files := fun _ => none
  join := joinPath

/-- A suite with the subdirectories `+5`, `-1` and `2`. -/
def signedWorld : World where
  glob := fun d =>
    if d = "suite".toList then .ok ["suite/+5".toList, "suite/-1".toList, "suite/2".toList]
    else .ok []
  stat := fun _ => some true
  readDir := fun _ => .ok []
  goTest := fun _ _ => false
  files := fun _ => none
  join := joinPath

/-- A configuration of the program `experiments/scripts/coverage_reporter.go`. -/
def sampleReportConfig : Configuration :=
  ⟨"target".toList, "report".toList⟩

/-- A profile of at least 10 bytes whose statement count is no integer. -/
def brokenProfile : GoString := "mode: set\nf.go:1.1,2.2 x 1\n".toList

/-- A suite whose variant `1` holds `foo_test.go`; the tests pass and leave
`brokenProfile` at the profile path. -/
def brokenWorld : World where
  glob := fun d => if d = "suite".toList then .ok ["suite/1".toList] else .ok []
  stat := fun _ => some true
  readDir := fun d =>
    if d = "suite/1".toList then .ok [("foo_test.go".toList, false)] else .ok []
  goTest := fun _ _ => true
  files := fun p => if p = "report/coverage_foo_test.go.out".toList then some brokenProfile else none
  join := joinPath

/-- The same suite where the tests leave `sampleA` at the profile path. -/
def passingWorld : World where
  glob := fun d => if d = "suite".toList then .ok ["suite/1".toList] else .ok []
  stat := fun _ => some true
  readDir := fun d =>
    if d = "suite/1".toList then .ok [("foo_test.go".toList, false)] else .ok []
  goTest := fun _ _ => true
  files := fun p => if p = "report/coverage_foo_test.go.out".toList then some sampleA else none
  join := joinPath

/-- The sample file system once `a.out` and `b.out` have been merged into `merged.out`. -/
def sampleMergedFS : FileSystem := fun q =>
  if q = "merged.out".toList then
    some (mergeCoverageProfiles sampleFS (fun _ => true) ["a.out".toList, "b.out".toList]
      "merged.out".toList).written
  else sampleFS q

/-- Five work items. -/
def poolItems : List Path :=
  ["s1".toList, "s2".toList, "s3".toList, "s4".toList, "s5".toList]

/-- A schedule in which the driver starts four executions and reaches the
send on the semaphore for the fifth item. -/
def blockedSchedule : List Event :=
  List.replicate 13 .drive

/-- A schedule to the end: the execution of `s1` fails and frees a place for
`s5`, the other executions succeed, and the driver continues last. -/
def fullSchedule : List Event :=
  blockedSchedule ++
    [.bodyReturns "s1".toList false, .release "s1".toList false, .done "s1".toList false,
      .drive, .drive, .drive,
      .bodyReturns "s2".toList true, .release "s2".toList true, .done "s2".toList true,
      .bodyReturns "s3".toList true, .release "s3".toList true, .done "s3".toList true,
      .bodyReturns "s4".toList true, .release "s4".toList true, .done "s4".toList true,
      .bodyReturns "s5".toList true, .release "s5".toList true, .done "s5".toList true,
      .drive]

/-! ## Merging -/

theorem mergeLines_records (recs : List GoString) (st : MergeState)
    (hrecs : ∀ l ∈ recs, hasPrefix l modePrefix = false) :
    mergeLines recs st = { st with out := st.out ++ renderLines recs } := by
  induction recs generalizing st with
  | nil => simp [mergeLines, renderLines]
  | cons l ls ih =>
    have hl : hasPrefix l modePrefix = false := hrecs l (List.mem_cons_self _ _)
    have hls : ∀ x ∈ ls, hasPrefix x modePrefix = false :=
      fun x hx => hrecs x (List.mem_cons_of_mem _ hx)
    simp [mergeLines, hl, ih _ hls, renderLines]

theorem mergeLines_header_kept (ls : List GoString) (st : MergeState)
    (hw : st.headerWritten = true) :
    (mergeLines ls st).headerWritten = true ∧
      (mergeLines ls st).coverageMode = st.coverageMode := by
  induction ls generalizing st with
  | nil => simp [mergeLines, hw]
  | cons l ls ih =>
    by_cases hp : hasPrefix l modePrefix = true
    · by_cases hm : modeOf l = st.coverageMode
      · simp [mergeLines, hp, hw, hm, ih st hw]
      · simp [mergeLines, hp, hw, hm]
    · have h := ih { st with out := st.out ++ (l ++ ['\n']) } hw
      simpa [mergeLines, hp] using h

theorem mergeLines_out_extends (ls : List GoString) (st : MergeState) :
    ∃ body, (mergeLines ls st).out = st.out ++ body := by
  induction ls generalizing st with
  | nil => exact ⟨[], by simp [mergeLines]⟩
  | cons l ls ih =>
    by_cases hp : hasPrefix l modePrefix = true
    · by_cases hw : st.headerWritten = true
      · by_cases hm : modeOf l = st.coverageMode
        · obtain ⟨body, hb⟩ := ih st
          exact ⟨body, by simp [mergeLines, hp, hw, hm, hb]⟩
        · exact ⟨[], by simp [mergeLines, hp, hw, hm]⟩
      · obtain ⟨body, hb⟩ := ih ⟨modeOf l, true, st.out ++ (l ++ ['\n'])⟩
        exact ⟨l ++ ['\n'] ++ body, by simp [mergeLines, hp, hw, hb]⟩
    · obtain ⟨body, hb⟩ := ih { st with out := st.out ++ (l ++ ['\n']) }
      exact ⟨l ++ ['\n'] ++ body, by simp [mergeLines, hp, hb]⟩

theorem mergeLines_mismatch (hdr : GoString) (rest : List GoString) (st : MergeState)
    (hw : st.headerWritten = true) (hp : hasPrefix hdr modePrefix = true)
    (hne : modeOf hdr ≠ st.coverageMode) :
    mergeLines (hdr :: rest) st = st := by
  simp [mergeLines, hp, hw, hne]

theorem mergeLines_first_header (hdr : GoString) (rest : List GoString)
    (hp : hasPrefix hdr modePrefix = true) :
    mergeLines (hdr :: rest) ⟨[], false, []⟩ =
      mergeLines rest ⟨modeOf hdr, true, hdr ++ ['\n']⟩ := by
  simp [mergeLines, hp]

/-- C1. Merging a single profile whose first line is a mode header and whose
other lines do not start with `mode:` succeeds, and the destination holds the
header line and then the record lines, in order, each followed by one line feed. -/
theorem mergeCoverageProfiles_single (fs : FileSystem) (canCreate : Path → Bool)
    (p dst : Path) (content hdr : GoString) (recs : List GoString)
    (hopen : fs p = some content) (hcreate : canCreate dst = true)
    (hscan : scan content = ⟨hdr :: recs, none⟩)
    (hhdr : hasPrefix hdr modePrefix = true)
    (hrecs : ∀ l ∈ recs, hasPrefix l modePrefix = false) :
    mergeCoverageProfiles fs canCreate [p] dst =
      ⟨none, true, hdr ++ '\n' :: renderLines recs⟩ := by
  simp [mergeCoverageProfiles, mergeProfiles, hcreate, hopen, hscan,
    mergeLines_first_header hdr recs hhdr, mergeLines_records recs _ hrecs]

theorem mergeCoverageProfiles_single_witness :
    mergeCoverageProfiles sampleFS (fun _ => true) ["a.out".toList] "merged.out".toList =
      ⟨none, true, "mode: set".toList ++ '\n' :: renderLines ["f.go:1.1,2.2 3 1".toList]⟩ :=
  mergeCoverageProfiles_single sampleFS (fun _ => true) "a.out".toList "merged.out".toList
    sampleA "mode: set".toList ["f.go:1.1,2.2 3 1".toList]
    (by decide) rfl (by decide) (by decide) (by decide)

/-- C2 as stated fails: the header lines `mode: set` and `mode:set` differ,
yet they name the same mode, and the second profile is merged. -/
theorem mergeCoverageProfiles_header_lines_differ :
    (scan sampleA).lines.head? = some "mode: set".toList ∧
    (scan sampleB).lines.head? = some "mode:set".toList ∧
    mergeCoverageProfiles sampleFS (fun _ => true) ["a.out".toList, "b.out".toList]
        "merged.out".toList =
      ⟨none, true, "mode: set\nf.go:1.1,2.2 3 1\ng.go:1.1,2.2 5 0\n".toList⟩ ∧
    mergeCoverageProfiles sampleFS (fun _ => true) ["a.out".toList, "b.out".toList]
        "merged.out".toList ≠
      mergeCoverageProfiles sampleFS (fun _ => true) ["a.out".toList] "merged.out".toList := by
  decide

/-- C2, amended. When the mode named by the header of `B` (the text after
`mode:`, white space trimmed) differs from the mode named by the header of `A`,
merging `[A, B]` gives what merging `[A]` gives: the output starts with the
header line of `A`, and `B` contributes no line. Where no other line of `A`
starts with `mode:`, the output is the header of `A` and the records of `A`. -/
theorem mergeCoverageProfiles_mode_mismatch (fs : FileSystem) (canCreate : Path → Bool)
    (a b dst : Path) (ca cb hdrA hdrB : GoString) (recsA recsB : List GoString)
    (hA : fs a = some ca) (hAs : scan ca = ⟨hdrA :: recsA, none⟩)
    (hAh : hasPrefix hdrA modePrefix = true)
    (hB : fs b = some cb) (hBl : (scan cb).lines = hdrB :: recsB)
    (hBh : hasPrefix hdrB modePrefix = true)
    (hne : modeOf hdrB ≠ modeOf hdrA) :
    mergeCoverageProfiles fs canCreate [a, b] dst = mergeCoverageProfiles fs canCreate [a] dst ∧
    (canCreate dst = true →
      (∃ body, (mergeCoverageProfiles fs canCreate [a, b] dst).written = hdrA ++ '\n' :: body) ∧
      ((∀ l ∈ recsA, hasPrefix l modePrefix = false) →
        (mergeCoverageProfiles fs canCreate [a, b] dst).written =
          hdrA ++ '\n' :: renderLines recsA)) := by
  have hkept := mergeLines_header_kept recsA ⟨modeOf hdrA, true, hdrA ++ ['\n']⟩ rfl
  have hskip : mergeLines (hdrB :: recsB) (mergeLines recsA ⟨modeOf hdrA, true, hdrA ++ ['\n']⟩)
      = mergeLines recsA ⟨modeOf hdrA, true, hdrA ++ ['\n']⟩ :=
    mergeLines_mismatch hdrB recsB _ hkept.1 hBh (by rw [hkept.2]; exact hne)
  have heq : mergeCoverageProfiles fs canCreate [a, b] dst =
      mergeCoverageProfiles fs canCreate [a] dst := by
    simp [mergeCoverageProfiles, mergeProfiles, hA, hB, hAs, hBl,
      mergeLines_first_header hdrA recsA hAh, hskip]
  refine ⟨heq, fun hc => ⟨?_, ?_⟩⟩
  · obtain ⟨body, hbody⟩ := mergeLines_out_extends recsA ⟨modeOf hdrA, true, hdrA ++ ['\n']⟩
    refine ⟨body, ?_⟩
    rw [heq]
    simp [mergeCoverageProfiles, mergeProfiles, hc, hA, hAs,
      mergeLines_first_header hdrA recsA hAh, hbody]
  · intro hrecs
    rw [heq]
    simp [mergeCoverageProfiles, mergeProfiles, hc, hA, hAs,
      mergeLines_first_header hdrA recsA hAh, mergeLines_records recsA _ hrecs]

theorem mergeCoverageProfiles_mode_mismatch_witness :
    modeOf "mode: count".toList ≠ modeOf "mode: set".toList ∧
    mergeCoverageProfiles sampleFS (fun _ => true) ["a.out".toList, "c.out".toList]
        "merged.out".toList =
      mergeCoverageProfiles sampleFS (fun _ => true) ["a.out".toList] "merged.out".toList :=
  ⟨by decide,
    (mergeCoverageProfiles_mode_mismatch sampleFS (fun _ => true) "a.out".toList "c.out".toList
      "merged.out".toList sampleA sampleC "mode: set".toList "mode: count".toList
      ["f.go:1.1,2.2 3 1".toList] ["h.go:1.1,2.2 7 2".toList]
      (by decide) (by decide) (by decide) (by decide) (by decide) (by decide) (by decide)).1⟩


/-! ## What `fmt.Sscanf` reads -/

theorem takeWhile_digits (ds rest : GoString) (hds : ∀ d ∈ ds, isDigit d = true)
    (hrest : ∀ c, rest.head? = some c → isDigit c = false) :
    (ds ++ rest).takeWhile isDigit = ds := by
  induction ds with
  | nil =>
    cases rest with
    | nil => rfl
    | cons c cs =>
      have hc : isDigit c = false := hrest c rfl
      simp [List.takeWhile, hc]
  | cons d ds ih =>
    have hd : isDigit d = true := hds d (List.mem_cons_self _ _)
    rw [List.cons_append, List.takeWhile_cons, hd,
      ih (fun x hx => hds x (List.mem_cons_of_mem _ hx))]
    rfl

theorem head_dropWhile_digits (l : GoString) :
    ∀ c, (l.dropWhile isDigit).head? = some c → isDigit c = false := by
  induction l with
  | nil =>
    intro c hc
    simp at hc
  | cons d ds ih =>
    intro c hc
    cases hd : isDigit d with
    | true =>
      simp only [List.dropWhile, hd] at hc
      exact ih c hc
    | false =>
      simp only [List.dropWhile, hd, List.head?_cons, Option.some.injEq] at hc
      rw [← hc]
      exact hd

theorem takeWhile_all_digits (l : GoString) : ∀ d ∈ l.takeWhile isDigit, isDigit d = true :=
  fun _ hd => List.mem_takeWhile_imp hd

theorem parseInt_signed (c : Char) (ds : GoString) (hc : (c == '+' || c == '-') = true) (v : Int)
    (h : parseInt (c :: ds) = some v) : ds ≠ [] ∧ ∀ d ∈ ds, isDigit d = true := by
  unfold parseInt at h
  simp only [hc, if_true] at h
  cases hemp : ds.isEmpty with
  | true => simp [hemp] at h
  | false =>
    cases hall : ds.all isDigit with
    | false => simp [hemp, hall] at h
    | true =>
      refine ⟨?_, fun d hd => List.all_eq_true.mp hall d hd⟩
      intro hnil
      rw [hnil] at hemp
      simp at hemp

theorem parseInt_unsigned (c : Char) (ds : GoString) (hc : (c == '+' || c == '-') = false)
    (v : Int) (h : parseInt (c :: ds) = some v) : ∀ d ∈ c :: ds, isDigit d = true := by
  unfold parseInt at h
  simp only [hc, Bool.false_eq_true, if_false] at h
  cases hall : (c :: ds).all isDigit with
  | false =>
    rw [hall] at h
    simp at h
  | true => exact fun d hd => List.all_eq_true.mp hall d hd

theorem sscanfInt_eq_some_iff (tok : GoString) (v : Int) :
    sscanfInt tok = some v ↔
      ∃ pre rest, tok = pre ++ rest ∧ parseInt pre = some v ∧
        ∀ c, rest.head? = some c → isDigit c = false := by
  constructor
  · intro h
    cases tok with
    | nil => simp [sscanfInt] at h
    | cons c cs =>
      unfold sscanfInt at h
      cases hc : (c == '+' || c == '-') with
      | true =>
        simp only [hc, if_true, List.drop_succ_cons, List.drop_zero, List.take_succ_cons,
          List.take_zero] at h
        by_cases hnum : (cs.takeWhile isDigit).isEmpty = true
        · simp [hnum] at h
        · simp only [hnum, Bool.false_eq_true, if_false] at h
          refine ⟨c :: cs.takeWhile isDigit, cs.dropWhile isDigit, ?_, h,
            head_dropWhile_digits cs⟩
          simp [List.takeWhile_append_dropWhile]
      | false =>
        simp only [hc, Bool.false_eq_true, if_false] at h
        by_cases hnum : ((c :: cs).takeWhile isDigit).isEmpty = true
        · simp [hnum] at h
        · simp only [hnum, Bool.false_eq_true, if_false] at h
          exact ⟨(c :: cs).takeWhile isDigit, (c :: cs).dropWhile isDigit,
            (List.takeWhile_append_dropWhile _ _).symm, h, head_dropWhile_digits _⟩
  · rintro ⟨pre, rest, htok, hpre, hrest⟩
    cases pre with
    | nil => simp [parseInt] at hpre
    | cons c ds =>
      subst htok
      unfold sscanfInt
      cases hc : (c == '+' || c == '-') with
      | true =>
        obtain ⟨hne, hds⟩ := parseInt_signed c ds hc v hpre
        simp only [List.cons_append, hc, if_true, List.drop_succ_cons, List.drop_zero,
          List.take_succ_cons, List.take_zero, takeWhile_digits ds rest hds hrest]
        have hemp : ds.isEmpty = false := by
          cases ds with
          | nil => exact absurd rfl hne
          | cons _ _ => rfl
        simp only [hemp, Bool.false_eq_true, if_false]
        exact hpre
      | false =>
        have hds := parseInt_unsigned c ds hc v hpre
        have htw := takeWhile_digits (c :: ds) rest hds hrest
        simp only [List.cons_append] at htw
        simp only [List.cons_append, hc, Bool.false_eq_true, if_false, htw, List.isEmpty_cons]
        exact hpre

/-! ## Statistics -/

theorem wrapInt_add_wrapInt (a b : Int) : wrapInt (wrapInt a + b) = wrapInt (a + b) := by
  unfold wrapInt
  omega

theorem wrapInt_idem (a : Int) : wrapInt (wrapInt a) = wrapInt a := by
  unfold wrapInt
  omega

theorem wrapInt_of_inRange (x : Int) (h : InIntRange x) : wrapInt x = x := by
  unfold InIntRange at h
  unfold wrapInt
  omega

theorem statsStep_eq (st : Stats) (l : GoString)
    (ht : wrapInt st.totalStatements = st.totalStatements)
    (hc : wrapInt st.coveredStatements = st.coveredStatements) :
    statsStep st l = ⟨wrapInt (st.totalStatements + lineStatements l),
      wrapInt (st.coveredStatements + lineCovered l)⟩ := by
  unfold statsStep lineStatements lineCovered
  split
  · next p1 p2 _ _ =>
    by_cases h : (sscanfInt p2).getD 0 > 0
    · simp [h]
    · simp [h, hc]
  · cases st
    simp_all

theorem statsFold_eq (ls : List GoString) (st : Stats)
    (ht : wrapInt st.totalStatements = st.totalStatements)
    (hc : wrapInt st.coveredStatements = st.coveredStatements) :
    ls.foldl statsStep st = ⟨wrapInt (st.totalStatements + (ls.map lineStatements).sum),
      wrapInt (st.coveredStatements + (ls.map lineCovered).sum)⟩ := by
  induction ls generalizing st with
  | nil => cases st; simp_all
  | cons l ls ih =>
    rw [List.foldl_cons, statsStep_eq st l ht hc, ih _ (wrapInt_idem _) (wrapInt_idem _)]
    simp only [List.map_cons, List.sum_cons, wrapInt_add_wrapInt, add_assoc]

theorem statsFold_zero (ls : List GoString) :
    ls.foldl statsStep ⟨0, 0⟩ = ⟨wrapInt (ls.map lineStatements).sum,
      wrapInt (ls.map lineCovered).sum⟩ := by
  rw [statsFold_eq ls ⟨0, 0⟩ (by decide) (by decide)]
  simp

theorem contribution_of_record (l : GoString) (s e : Int) (h : recordOf l = some (s, e)) :
    lineStatements l = s ∧ lineCovered l = if 0 < e then s else 0 := by
  unfold recordOf at h
  unfold lineStatements lineCovered
  split at h
  · next p1 p2 _ heq =>
    cases h1 : sscanfInt p1 with
    | none => simp [h1] at h
    | some v1 =>
      cases h2 : sscanfInt p2 with
      | none => simp [h1, h2] at h
      | some v2 =>
        simp only [h1, h2, Option.some.injEq, Prod.mk.injEq] at h
        simp [heq, h1, h2, h.1, h.2]
  · exact absurd h (by simp)

theorem contribution_of_short (l : GoString) (h : hasThreeFields l = false) :
    lineStatements l = 0 ∧ lineCovered l = 0 ∧ recordOf l = none := by
  unfold hasThreeFields at h
  unfold lineStatements lineCovered recordOf
  split
  · next heq => simp [heq] at h
  · exact ⟨rfl, rfl, rfl⟩

theorem sums_of_records (ls : List GoString)
    (hwf : ∀ l ∈ ls, hasThreeFields l = true → (recordOf l).isSome = true) :
    (ls.map lineStatements).sum = sumStatements ls ∧
      (ls.map lineCovered).sum = sumCovered ls := by
  induction ls with
  | nil => simp [sumStatements, sumCovered]
  | cons l ls ih =>
    have ih1 := ih (fun x hx => hwf x (List.mem_cons_of_mem _ hx))
    have hl := hwf l (List.mem_cons_self _ _)
    unfold sumStatements sumCovered at ih1 ⊢
    cases hr : recordOf l with
    | none =>
      have hshort : hasThreeFields l = false := by
        cases h3 : hasThreeFields l with
        | false => rfl
        | true => simp [hr] at hl; exact absurd h3 (by simp [hl])
      obtain ⟨h1, h2, _⟩ := contribution_of_short l hshort
      simp [List.filterMap_cons, hr, h1, h2, ih1.1, ih1.2]
    | some r =>
      obtain ⟨s, e⟩ := r
      obtain ⟨h1, h2⟩ := contribution_of_record l s e hr
      by_cases he : 0 < e
      · simp [List.filterMap_cons, hr, h1, h2, he, ih1.1, ih1.2, List.filter_cons]
      · simp [List.filterMap_cons, hr, h1, h2, he, ih1.1, ih1.2, List.filter_cons]

theorem linesAfterFirst_read (lines : List GoString) :
    linesAfterFirst ⟨lines, none⟩ = lines.tail := by
  cases lines <;> rfl

theorem display_eq (fs : FileSystem) (p : Path) (content : GoString)
    (lines : List GoString) (hopen : fs p = some content)
    (hscan : scan content = ⟨lines, none⟩) :
    displayCoverageStatistics fs p =
      .ok ⟨wrapInt (lines.tail.map lineStatements).sum,
        wrapInt (lines.tail.map lineCovered).sum,
        coveragePercentage (wrapInt (lines.tail.map lineStatements).sum)
          (wrapInt (lines.tail.map lineCovered).sum)⟩ := by
  simp [displayCoverageStatistics, hopen, hscan, linesAfterFirst_read, statsFold_zero]

theorem project_display_eq (fs : FileSystem) (p : Path) (config : Project.Configuration) :
    Project.displayCoverageStatistics fs p config = displayCoverageStatistics fs p := by
  unfold Project.displayCoverageStatistics displayCoverageStatistics
  rfl

theorem line_contribution (l : GoString) :
    lineStatements l = (statementCountOf l).getD 0 ∧
      lineCovered l = if executedLine l = true then (statementCountOf l).getD 0 else 0 := by
  unfold lineStatements lineCovered statementCountOf executedLine
  split
  · next p1 p2 _ heq =>
    by_cases h : (sscanfInt p2).getD 0 > 0
    · simp [h]
    · simp [h]
  · simp

theorem sums_read (ls : List GoString) :
    (ls.map lineStatements).sum = sumRead ls ∧
      (ls.map lineCovered).sum = sumReadExecuted ls := by
  induction ls with
  | nil => simp [sumRead, sumReadExecuted]
  | cons l ls ih =>
    unfold sumRead sumReadExecuted at ih ⊢
    obtain ⟨h1, h2⟩ := line_contribution l
    cases hx : executedLine l with
    | true =>
      cases hs : statementCountOf l with
      | none => simp [List.filterMap_cons, List.filter_cons, hx, hs, h1, h2, ih.1, ih.2]
      | some v => simp [List.filterMap_cons, List.filter_cons, hx, hs, h1, h2, ih.1, ih.2]
    | false =>
      cases hs : statementCountOf l with
      | none => simp [List.filterMap_cons, List.filter_cons, hx, hs, h1, h2, ih.1, ih.2]
      | some v => simp [List.filterMap_cons, List.filter_cons, hx, hs, h1, h2, ih.1, ih.2]

/-- C3 as stated fails: in the profile with the lines `f.go:1.1,2.2 x 1`,
`g.go:1.1,2.2 3 1` and `h.go:1.1,2.2 4 y` after the header, only the second
line has integer second and third fields, so the sum of the statement counts
over those lines is 3, while `totalStatements` is 7: the line with the
execution count `y` adds its statement count 4. -/
theorem displayCoverageStatistics_counts_beyond_records :
    scan "mode: set\nf.go:1.1,2.2 x 1\ng.go:1.1,2.2 3 1\nh.go:1.1,2.2 4 y\n".toList =
      ⟨["mode: set".toList, "f.go:1.1,2.2 x 1".toList, "g.go:1.1,2.2 3 1".toList,
        "h.go:1.1,2.2 4 y".toList], none⟩ ∧
    fields "h.go:1.1,2.2 4 y".toList = ["h.go:1.1,2.2".toList, "4".toList, "y".toList] ∧
    atoi "y".toList = none ∧ sscanfInt "y".toList = none ∧
    recordOf "f.go:1.1,2.2 x 1".toList = none ∧
    recordOf "g.go:1.1,2.2 3 1".toList = some (3, 1) ∧
    recordOf "h.go:1.1,2.2 4 y".toList = none ∧
    sumStatements ["f.go:1.1,2.2 x 1".toList, "g.go:1.1,2.2 3 1".toList,
      "h.go:1.1,2.2 4 y".toList] = 3 ∧
    (∃ r, displayCoverageStatistics statsFS "badstmt.out".toList = .ok r ∧
      Project.displayCoverageStatistics statsFS "badstmt.out".toList sampleConfig = .ok r ∧
      r.totalStatements = 7 ∧ r.coveredStatements = 3) := by
  refine ⟨by decide, by decide, by decide, by decide, by decide, by decide, by decide,
    by decide, ?_⟩
  have h := display_eq statsFS "badstmt.out".toList
    "mode: set\nf.go:1.1,2.2 x 1\ng.go:1.1,2.2 3 1\nh.go:1.1,2.2 4 y\n".toList
    ["mode: set".toList, "f.go:1.1,2.2 x 1".toList, "g.go:1.1,2.2 3 1".toList,
      "h.go:1.1,2.2 4 y".toList] (by decide) (by decide)
  refine ⟨_, h, ?_, by decide, by decide⟩
  rw [project_display_eq, h]

/-- C3, amended. `displayCoverageStatistics` (in both programs) leaves the
first line out, whatever it is, and over the other lines with at least three
fields reports as `totalStatements` the sum of the statement counts that
`fmt.Sscanf` reads from the second field, whatever the third field is, and as
`coveredStatements` the sum of those statement counts over the lines from
whose third field an execution count above 0 is read. Lines with fewer than
three fields add nothing. When every line with three fields has a second and a
third field that are read, these are the sums of the claim. The sums are those
of Go's `int`: they are the exact sums when these fit 64 bits. -/
theorem displayCoverageStatistics_sums (fs : FileSystem) (p : Path)
    (config : Project.Configuration) (content : GoString) (lines : List GoString)
    (hopen : fs p = some content) (hscan : scan content = ⟨lines, none⟩) :
    ∃ r, displayCoverageStatistics fs p = .ok r ∧
      Project.displayCoverageStatistics fs p config = .ok r ∧
      r.totalStatements = wrapInt (sumRead lines.tail) ∧
      r.coveredStatements = wrapInt (sumReadExecuted lines.tail) ∧
      (InIntRange (sumRead lines.tail) → r.totalStatements = sumRead lines.tail) ∧
      (InIntRange (sumReadExecuted lines.tail) →
        r.coveredStatements = sumReadExecuted lines.tail) ∧
      (∀ l ∈ lines.tail, hasThreeFields l = false →
        statementCountOf l = none ∧ executedLine l = false) ∧
      ((∀ l ∈ lines.tail, hasThreeFields l = true → (recordOf l).isSome = true) →
        sumRead lines.tail = sumStatements lines.tail ∧
        sumReadExecuted lines.tail = sumCovered lines.tail) := by
  obtain ⟨h1, h2⟩ := sums_read lines.tail
  refine ⟨_, display_eq fs p content lines hopen hscan, ?_, ?_, ?_, ?_, ?_, ?_, ?_⟩
  · rw [project_display_eq, display_eq fs p content lines hopen hscan]
  · show wrapInt (List.map lineStatements lines.tail).sum = _
    rw [h1]
  · show wrapInt (List.map lineCovered lines.tail).sum = _
    rw [h2]
  · intro hr
    show wrapInt (List.map lineStatements lines.tail).sum = _
    rw [h1, wrapInt_of_inRange _ hr]
  · intro hr
    show wrapInt (List.map lineCovered lines.tail).sum = _
    rw [h2, wrapInt_of_inRange _ hr]
  · intro l _ h3
    unfold hasThreeFields at h3
    unfold statementCountOf executedLine
    constructor
    · split
      · next heq => simp [heq] at h3
      · rfl
    · split
      · next heq => simp [heq] at h3
      · rfl
  · intro hwf
    obtain ⟨k1, k2⟩ := sums_of_records lines.tail hwf
    exact ⟨h1.symm.trans k1, h2.symm.trans k2⟩

theorem displayCoverageStatistics_sums_witness :
    (∃ r, displayCoverageStatistics statsFS "two.out".toList = .ok r ∧
      Project.displayCoverageStatistics statsFS "two.out".toList sampleConfig = .ok r ∧
      r.totalStatements = 8 ∧ r.coveredStatements = 3) ∧
    (∃ r, displayCoverageStatistics statsFS "noheader.out".toList = .ok r ∧
      Project.displayCoverageStatistics statsFS "noheader.out".toList sampleConfig = .ok r ∧
      r.totalStatements = 5 ∧ r.coveredStatements = 0) ∧
    (∃ r, displayCoverageStatistics statsFS "badstmt.out".toList = .ok r ∧
      Project.displayCoverageStatistics statsFS "badstmt.out".toList sampleConfig = .ok r ∧
      r.totalStatements = 7 ∧ r.coveredStatements = 3) := by
  obtain ⟨r, h1, h2, _, _, h5, h6, _, _⟩ :=
    displayCoverageStatistics_sums statsFS "two.out".toList sampleConfig
      "mode: atomic\nf.go:1.1,2.2 3 1\nf.go:3.1,4.2 5 0\n".toList
      ["mode: atomic".toList, "f.go:1.1,2.2 3 1".toList, "f.go:3.1,4.2 5 0".toList]
      (by decide) (by decide)
  obtain ⟨r2, k1, k2, _, _, k5, k6, _, _⟩ :=
    displayCoverageStatistics_sums statsFS "noheader.out".toList sampleConfig
      "f.go:1.1,2.2 3 1\nf.go:3.1,4.2 5 0\n".toList
      ["f.go:1.1,2.2 3 1".toList, "f.go:3.1,4.2 5 0".toList]
      (by decide) (by decide)
  obtain ⟨r3, m1, m2, _, _, m5, m6, _, _⟩ :=
    displayCoverageStatistics_sums statsFS "badstmt.out".toList sampleConfig
      "mode: set\nf.go:1.1,2.2 x 1\ng.go:1.1,2.2 3 1\nh.go:1.1,2.2 4 y\n".toList
      ["mode: set".toList, "f.go:1.1,2.2 x 1".toList, "g.go:1.1,2.2 3 1".toList,
        "h.go:1.1,2.2 4 y".toList]
      (by decide) (by decide)
  exact ⟨⟨r, h1, h2, (h5 (by decide)).trans (by decide), (h6 (by decide)).trans (by decide)⟩,
    ⟨r2, k1, k2, (k5 (by decide)).trans (by decide), (k6 (by decide)).trans (by decide)⟩,
    ⟨r3, m1, m2, (m5 (by decide)).trans (by decide), (m6 (by decide)).trans (by decide)⟩⟩

theorem calcStep_ok (st : Stats) (l : GoString) (hs : badStatementCount l = false)
    (he : badExecutionCount l = false) : calcStep st l = .ok (statsStep st l) := by
  unfold badStatementCount at hs
  unfold badExecutionCount at he
  unfold calcStep statsStep
  split
  · next p1 p2 _ heq =>
    simp only [heq] at hs he
    cases h1 : sscanfInt p1 with
    | none => simp [h1] at hs
    | some v1 =>
      cases h2 : sscanfInt p2 with
      | none => simp [h2] at he
      | some v2 =>
        by_cases h : v2 > 0 <;> simp [h]
  · rfl

theorem calcStep_error (st : Stats) (l : GoString)
    (h : badStatementCount l = true ∨ badExecutionCount l = true) :
    ∃ e, calcStep st l = .error e := by
  unfold badStatementCount badExecutionCount at h
  unfold calcStep
  split
  · next p1 p2 _ heq =>
    simp only [heq] at h
    cases h1 : sscanfInt p1 with
    | none => exact ⟨_, rfl⟩
    | some v1 =>
      cases h2 : sscanfInt p2 with
      | none => exact ⟨_, rfl⟩
      | some v2 => simp [h1, h2] at h
  · next hno =>
    rcases h with h | h
    · split at h
      · next heq => exact absurd heq (hno _ _ _ _)
      · exact absurd h (by simp)
    · split at h
      · next heq => exact absurd heq (hno _ _ _ _)
      · exact absurd h (by simp)

theorem calcLoop_ok (ls : List GoString) (st : Stats)
    (h : ∀ l ∈ ls, badStatementCount l = false ∧ badExecutionCount l = false) :
    calcLoop ls st = .ok (ls.foldl statsStep st) := by
  induction ls generalizing st with
  | nil => rfl
  | cons l ls ih =>
    have hl := h l (List.mem_cons_self _ _)
    simp only [calcLoop, calcStep_ok st l hl.1 hl.2, List.foldl_cons]
    exact ih _ (fun x hx => h x (List.mem_cons_of_mem _ hx))

theorem calcLoop_error (ls : List GoString) (st : Stats)
    (h : ∃ l ∈ ls, badStatementCount l = true ∨ badExecutionCount l = true) :
    ∃ e, calcLoop ls st = .error e := by
  induction ls generalizing st with
  | nil => simp at h
  | cons l ls ih =>
    by_cases hl : badStatementCount l = true ∨ badExecutionCount l = true
    · obtain ⟨e, he⟩ := calcStep_error st l hl
      exact ⟨e, by simp [calcLoop, he]⟩
    · have hl2 : badStatementCount l = false ∧ badExecutionCount l = false := by
        constructor
        · cases hb : badStatementCount l with
          | false => rfl
          | true => exact absurd (Or.inl hb) hl
        · cases hb : badExecutionCount l with
          | false => rfl
          | true => exact absurd (Or.inr hb) hl
      obtain ⟨x, hx, hbad⟩ := h
      have hxs : x ∈ ls := by
        rcases List.mem_cons.mp hx with hxl | hxl
        · subst hxl
          exact absurd hbad hl
        · exact hxl
      obtain ⟨e, he⟩ := ih (statsStep st l) ⟨x, hxs, hbad⟩
      exact ⟨e, by simp [calcLoop, calcStep_ok st l hl2.1 hl2.2, he]⟩

theorem calculate_eq (fs : FileSystem) (p : Path) (content : GoString)
    (lines : List GoString) (hopen : fs p = some content)
    (hscan : scan content = ⟨lines, none⟩)
    (h : ∀ l ∈ lines.tail, badStatementCount l = false ∧ badExecutionCount l = false) :
    calculateCoveragePercentage fs p =
      .ok (coveragePercentage (wrapInt (lines.tail.map lineStatements).sum)
        (wrapInt (lines.tail.map lineCovered).sum)) := by
  simp [calculateCoveragePercentage, hopen, hscan, linesAfterFirst_read,
    calcLoop_ok lines.tail _ h, statsFold_zero]

theorem records_of_not_bad (rest : List GoString)
    (h : ∀ l ∈ rest, badStatementCount l = false ∧ badExecutionCount l = false) :
    ∀ l ∈ rest, hasThreeFields l = true → (recordOf l).isSome = true := by
  intro l hl h3
  obtain ⟨hs, he⟩ := h l hl
  unfold badStatementCount at hs
  unfold badExecutionCount at he
  unfold recordOf
  unfold hasThreeFields at h3
  split
  · next p1 p2 _ heq =>
    simp only [heq] at hs he
    cases h1 : sscanfInt p1 with
    | none => simp [h1] at hs
    | some v1 =>
      cases h2 : sscanfInt p2 with
      | none => simp [h2] at he
      | some v2 => rfl
  · next hno =>
    exfalso
    match hf : fields l, h3 with
    | [], h3 => simp [hf] at h3
    | [_], h3 => simp [hf] at h3
    | [_, _], h3 => simp [hf] at h3
    | a :: b :: c :: t, _ => exact hno a b c t hf

theorem bad_count_iff (l : GoString) :
    (badStatementCount l = true ∨ badExecutionCount l = true) ↔
      ∃ p0 p1 p2 t, fields l = p0 :: p1 :: p2 :: t ∧
        (sscanfInt p1 = none ∨ sscanfInt p2 = none) := by
  unfold badStatementCount badExecutionCount
  constructor
  · intro h
    match hf : fields l with
    | [] => simp [hf] at h
    | [_] => simp [hf] at h
    | [_, _] => simp [hf] at h
    | p0 :: p1 :: p2 :: t =>
      refine ⟨p0, p1, p2, t, rfl, ?_⟩
      simpa [hf, Option.isNone_iff_eq_none] using h
  · rintro ⟨p0, p1, p2, t, hf, h⟩
    simpa [hf, Option.isNone_iff_eq_none] using h

/-- C9, amended. On a profile that can be opened and that the scanner reads
to its end, `calculateCoveragePercentage` returns an error exactly when some
line after the first has at least three fields and a statement count or an
execution count from which `fmt.Sscanf` reads no integer; lines with fewer
than three fields cause no error; without such a line it returns the
percentage. `fmt.Sscanf` reads the integer `v` from a field exactly when the
field begins with a text that `strconv.Atoi` reads as `v` and goes on with
the end of the field or with a character that is no digit: what follows the
digits is not looked at. -/
theorem calculateCoveragePercentage_error_iff (fs : FileSystem) (p : Path)
    (content : GoString) (lines : List GoString)
    (hopen : fs p = some content) (hscan : scan content = ⟨lines, none⟩) :
    ((∃ e, calculateCoveragePercentage fs p = .error e) ↔
      ∃ l ∈ lines.tail, badStatementCount l = true ∨ badExecutionCount l = true) ∧
    ((∀ l ∈ lines.tail, hasThreeFields l = false → badStatementCount l = false ∧
      badExecutionCount l = false)) ∧
    ((∀ l ∈ lines.tail, badStatementCount l = false ∧ badExecutionCount l = false) →
      calculateCoveragePercentage fs p =
        .ok (coveragePercentage (wrapInt (sumStatements lines.tail))
          (wrapInt (sumCovered lines.tail)))) ∧
    (∀ l ∈ lines.tail, (badStatementCount l = true ∨ badExecutionCount l = true) ↔
      ∃ p0 p1 p2 t, fields l = p0 :: p1 :: p2 :: t ∧
        (sscanfInt p1 = none ∨ sscanfInt p2 = none)) ∧
    (∀ (tok : GoString) (v : Int), sscanfInt tok = some v ↔
      ∃ pre rest, tok = pre ++ rest ∧ atoi pre = some v ∧
        ∀ c, rest.head? = some c → isDigit c = false) := by
  have hok : (∀ l ∈ lines.tail, badStatementCount l = false ∧ badExecutionCount l = false) →
      calculateCoveragePercentage fs p =
        .ok (coveragePercentage (wrapInt (sumStatements lines.tail))
          (wrapInt (sumCovered lines.tail))) := by
    intro h
    obtain ⟨h1, h2⟩ := sums_of_records lines.tail (records_of_not_bad lines.tail h)
    rw [calculate_eq fs p content lines hopen hscan h, h1, h2]
  refine ⟨⟨?_, ?_⟩, ?_, hok, ?_, fun tok v => sscanfInt_eq_some_iff tok v⟩
  · rintro ⟨e, he⟩
    by_contra hno
    have h : ∀ l ∈ lines.tail, badStatementCount l = false ∧ badExecutionCount l = false := by
      intro l hl
      constructor
      · cases hb : badStatementCount l with
        | false => rfl
        | true => exact absurd ⟨l, hl, Or.inl hb⟩ hno
      · cases hb : badExecutionCount l with
        | false => rfl
        | true => exact absurd ⟨l, hl, Or.inr hb⟩ hno
    rw [hok h] at he
    cases he
  · intro h
    obtain ⟨e, he⟩ := calcLoop_error lines.tail ⟨0, 0⟩ h
    exact ⟨e, by simp [calculateCoveragePercentage, hopen, hscan, linesAfterFirst_read, he]⟩
  · intro l _ h3
    unfold hasThreeFields at h3
    unfold badStatementCount badExecutionCount
    constructor
    · split
      · next heq => simp [heq] at h3
      · rfl
    · split
      · next heq => simp [heq] at h3
      · rfl
  · intro l _
    exact bad_count_iff l

theorem calculateCoveragePercentage_error_iff_witness :
    ((∃ e, calculateCoveragePercentage statsFS "badexec.out".toList = .error e) ↔
      ∃ l ∈ ["f.go:1.1,2.2 3 x".toList],
        badStatementCount l = true ∨ badExecutionCount l = true) ∧
    (∃ l ∈ ["f.go:1.1,2.2 3 x".toList],
        badStatementCount l = true ∨ badExecutionCount l = true) ∧
    (∃ e, calculateCoveragePercentage statsFS "badexec.out".toList = .error e) :=
  ⟨(calculateCoveragePercentage_error_iff statsFS "badexec.out".toList
      "mode: set\nf.go:1.1,2.2 3 x\n".toList ["mode: set".toList, "f.go:1.1,2.2 3 x".toList]
      (by decide) (by decide)).1,
    ⟨_, List.mem_singleton.mpr rfl, Or.inr (by decide)⟩,
    (calculateCoveragePercentage_error_iff statsFS "badexec.out".toList
      "mode: set\nf.go:1.1,2.2 3 x\n".toList ["mode: set".toList, "f.go:1.1,2.2 3 x".toList]
      (by decide) (by decide)).1.mpr ⟨_, List.mem_singleton.mpr rfl, Or.inr (by decide)⟩⟩

theorem contribution_of_bad_statement (l : GoString) (h : badStatementCount l = true) :
    lineStatements l = 0 ∧ lineCovered l = 0 := by
  unfold badStatementCount at h
  unfold lineStatements lineCovered
  split
  · next p1 p2 _ heq =>
    simp only [heq] at h
    cases h1 : sscanfInt p1 with
    | none => simp
    | some v => simp [h1] at h
  · exact ⟨rfl, rfl⟩

theorem contribution_of_bad_execution (l : GoString) (s : Int)
    (hs : statementCountOf l = some s) (he : badExecutionCount l = true) :
    lineStatements l = s ∧ lineCovered l = 0 := by
  unfold statementCountOf at hs
  unfold badExecutionCount at he
  unfold lineStatements lineCovered
  split
  · next p1 p2 _ heq =>
    simp only [heq] at hs he
    cases h2 : sscanfInt p2 with
    | none => simp [hs]
    | some v => simp [h2] at he
  · next hno =>
    split at hs
    · next heq => exact absurd heq (hno _ _ _ _)
    · exact absurd hs (by simp)

theorem sums_without_bad_statement (ls : List GoString) :
    (ls.map lineStatements).sum =
        ((ls.filter (fun l => !badStatementCount l)).map lineStatements).sum ∧
      (ls.map lineCovered).sum =
        ((ls.filter (fun l => !badStatementCount l)).map lineCovered).sum := by
  induction ls with
  | nil => simp
  | cons l ls ih =>
    cases hb : badStatementCount l with
    | false => simp [List.filter_cons, hb, ih.1, ih.2]
    | true =>
      obtain ⟨h1, h2⟩ := contribution_of_bad_statement l hb
      simp [List.filter_cons, hb, h1, h2, ih.1, ih.2]

/-- C8 as stated fails: the line `f.go:1.1,2.2 3 x` has three fields and an
execution count that is no integer, and it adds 3 to `totalStatements`; with
the line removed `totalStatements` is 0. -/
theorem displayCoverageStatistics_unreadable_execution_counted :
    hasThreeFields "f.go:1.1,2.2 3 x".toList = true ∧
    badExecutionCount "f.go:1.1,2.2 3 x".toList = true ∧
    scan "mode: set\nf.go:1.1,2.2 3 x\n".toList =
      ⟨["mode: set".toList, "f.go:1.1,2.2 3 x".toList], none⟩ ∧
    scan "mode: set\n".toList = ⟨["mode: set".toList], none⟩ ∧
    (∃ r, displayCoverageStatistics statsFS "badexec.out".toList = .ok r ∧
      r.totalStatements = 3 ∧ r.coveredStatements = 0) ∧
    (∃ r, displayCoverageStatistics statsFS "headeronly.out".toList = .ok r ∧
      r.totalStatements = 0 ∧ r.coveredStatements = 0) := by
  refine ⟨by decide, by decide, by decide, by decide, ?_, ?_⟩
  · exact ⟨_, display_eq statsFS _ "mode: set\nf.go:1.1,2.2 3 x\n".toList
      ["mode: set".toList, "f.go:1.1,2.2 3 x".toList] (by decide) (by decide),
      by decide, by decide⟩
  · exact ⟨_, display_eq statsFS _ "mode: set\n".toList ["mode: set".toList]
      (by decide) (by decide), by decide, by decide⟩

/-- C8, amended. In `displayCoverageStatistics` (both programs) a line with at
least three fields whose statement count cannot be read is skipped: the
statistics of a profile are those of the profile with every such line
removed. A line whose statement count `s` is read and whose execution count
cannot be read is not skipped: it adds `s` to `totalStatements` and nothing to
`coveredStatements`. -/
theorem displayCoverageStatistics_unreadable_counts (fs : FileSystem) (p q : Path)
    (config : Project.Configuration) (c d first : GoString) (lines : List GoString)
    (hp : fs p = some c) (hc : scan c = ⟨lines, none⟩)
    (hq : fs q = some d)
    (hd : scan d = ⟨first :: lines.tail.filter (fun l => !badStatementCount l), none⟩) :
    displayCoverageStatistics fs p = displayCoverageStatistics fs q ∧
    Project.displayCoverageStatistics fs p config =
      Project.displayCoverageStatistics fs q config ∧
    (∀ (pre post : List GoString) (l : GoString) (s : Int) (q2 : Path) (d2 first2 : GoString),
      lines.tail = pre ++ l :: post → statementCountOf l = some s →
      badExecutionCount l = true →
      fs q2 = some d2 → scan d2 = ⟨first2 :: (pre ++ post), none⟩ →
      ∃ r r2, displayCoverageStatistics fs p = .ok r ∧
        displayCoverageStatistics fs q2 = .ok r2 ∧
        r.totalStatements = wrapInt (r2.totalStatements + s) ∧
        r.coveredStatements = r2.coveredStatements) := by
  have heq : displayCoverageStatistics fs p = displayCoverageStatistics fs q := by
    rw [display_eq fs p c lines hp hc, display_eq fs q d _ hq hd, List.tail_cons,
      ← (sums_without_bad_statement lines.tail).1, ← (sums_without_bad_statement lines.tail).2]
  refine ⟨heq, ?_, ?_⟩
  · rw [project_display_eq, project_display_eq, heq]
  · intro pre post l s q2 d2 first2 hrest hs he hq2 hd2
    obtain ⟨h1, h2⟩ := contribution_of_bad_execution l s hs he
    refine ⟨_, _, display_eq fs p c lines hp hc,
      display_eq fs q2 d2 _ hq2 hd2, ?_, ?_⟩
    · simp only [hrest, List.tail_cons, List.map_append, List.map_cons, List.sum_append,
        List.sum_cons, h1, wrapInt_add_wrapInt]
      congr 1
      ring
    · simp only [hrest, List.tail_cons, List.map_append, List.map_cons, List.sum_append,
        List.sum_cons, h2, zero_add]

theorem displayCoverageStatistics_unreadable_counts_witness :
    displayCoverageStatistics statsFS "badstmt.out".toList =
      displayCoverageStatistics statsFS "badstmt_removed.out".toList :=
  (displayCoverageStatistics_unreadable_counts statsFS "badstmt.out".toList
    "badstmt_removed.out".toList sampleConfig
    "mode: set\nf.go:1.1,2.2 x 1\ng.go:1.1,2.2 3 1\nh.go:1.1,2.2 4 y\n".toList
    "mode: set\ng.go:1.1,2.2 3 1\nh.go:1.1,2.2 4 y\n".toList
    "mode: set".toList
    ["mode: set".toList, "f.go:1.1,2.2 x 1".toList, "g.go:1.1,2.2 3 1".toList,
      "h.go:1.1,2.2 4 y".toList]
    (by decide) (by decide) (by decide) (by decide)).1

/-! ## `float64` -/

theorem roundHalfEven_near (y : ℚ) : |(roundHalfEven y : ℚ) - y| ≤ 1 / 2 := by
  have h1 : (⌊y⌋ : ℚ) ≤ y := Int.floor_le y
  have h2 : y < ⌊y⌋ + 1 := Int.lt_floor_add_one y
  unfold roundHalfEven
  rw [abs_le]
  split_ifs with ha hb hc
  · constructor <;> linarith
  · push_cast
    constructor <;> linarith
  · constructor <;> linarith
  · push_cast
    constructor <;> linarith

theorem roundHalfEven_eq (y : ℚ) (n : ℤ) (h : |y - n| < 1 / 2) : roundHalfEven y = n := by
  have h1 := roundHalfEven_near y
  have h2 : |((roundHalfEven y - n : ℤ) : ℚ)| < 1 := by
    push_cast
    have : (roundHalfEven y : ℚ) - n = ((roundHalfEven y : ℚ) - y) + (y - n) := by ring
    rw [this]
    calc |((roundHalfEven y : ℚ) - y) + (y - n)|
        ≤ |(roundHalfEven y : ℚ) - y| + |y - n| := abs_add _ _
      _ < 1 / 2 + 1 / 2 := by linarith
      _ = 1 := by norm_num
  rw [← Int.cast_abs] at h2
  have h3 : |roundHalfEven y - n| < 1 := by exact_mod_cast h2
  have h4 := Int.abs_lt_one_iff.mp h3
  omega

theorem log_two_eq (x : ℚ) (e : ℤ) (hpos : 0 < x) (hlo : (2 : ℚ) ^ e ≤ x)
    (hhi : x < (2 : ℚ) ^ (e + 1)) : Int.log 2 x = e := by
  have h1 : e ≤ Int.log 2 x := (Int.zpow_le_iff_le_log (by norm_num) hpos).mp (by exact_mod_cast hlo)
  have h2 : Int.log 2 x < e + 1 :=
    (Int.lt_zpow_iff_log_lt (by norm_num) hpos).mp (by exact_mod_cast hhi)
  omega

theorem roundFloat64_normal (x : ℚ) (e : ℤ) (hx : x ≠ 0) (hlo : (2 : ℚ) ^ e ≤ |x|)
    (hhi : |x| < (2 : ℚ) ^ (e + 1)) (hmin : -1022 ≤ e) (hmax : e ≤ 1022) :
    roundFloat64 x = .finite ((roundHalfEven (x / 2 ^ (e - 52)) : ℚ) * 2 ^ (e - 52)) ∧
    |(roundHalfEven (x / 2 ^ (e - 52)) : ℚ) * 2 ^ (e - 52) - x| ≤ 2 ^ (e - 53) := by
  have hpos : 0 < |x| := abs_pos.mpr hx
  have hlog : Int.log 2 |x| = e := log_two_eq |x| e hpos hlo hhi
  have hk : max (e - 52) (-1074) = e - 52 := max_eq_left (by omega)
  have hu : (0 : ℚ) < 2 ^ (e - 52) := zpow_pos (by norm_num) _
  have herr : |(roundHalfEven (x / 2 ^ (e - 52)) : ℚ) * 2 ^ (e - 52) - x| ≤ 2 ^ (e - 53) := by
    have hn := roundHalfEven_near (x / 2 ^ (e - 52))
    have hfac : (roundHalfEven (x / 2 ^ (e - 52)) : ℚ) * 2 ^ (e - 52) - x =
        ((roundHalfEven (x / 2 ^ (e - 52)) : ℚ) - x / 2 ^ (e - 52)) * 2 ^ (e - 52) := by
      field_simp
    rw [hfac, abs_mul, abs_of_pos hu]
    have h53 : (2 : ℚ) ^ (e - 53) = 1 / 2 * 2 ^ (e - 52) := by
      rw [show e - 52 = (e - 53) + 1 by ring, zpow_add_one₀ (by norm_num)]
      ring
    rw [h53]
    exact mul_le_mul_of_nonneg_right hn (le_of_lt hu)
  refine ⟨?_, herr⟩
  unfold roundFloat64
  rw [if_neg hx, hlog, hk]
  rw [if_neg]
  rw [not_le]
  have hv : |(roundHalfEven (x / 2 ^ (e - 52)) : ℚ) * 2 ^ (e - 52)| ≤ |x| + 2 ^ (e - 53) := by
    have := abs_sub_abs_le_abs_sub ((roundHalfEven (x / 2 ^ (e - 52)) : ℚ) * 2 ^ (e - 52)) x
    linarith
  have h1 : (2 : ℚ) ^ (e + 1) ≤ 2 ^ (1023 : ℤ) := zpow_le_zpow_right₀ (by norm_num) (by omega)
  have h2 : (2 : ℚ) ^ (e - 53) ≤ 2 ^ (1023 : ℤ) := zpow_le_zpow_right₀ (by norm_num) (by omega)
  have h3 : (2 : ℚ) ^ (1024 : ℤ) = 2 ^ (1023 : ℤ) + 2 ^ (1023 : ℤ) := by
    rw [show (1024 : ℤ) = 1023 + 1 by norm_num, zpow_add_one₀ (by norm_num)]
    ring
  linarith

theorem roundFloat64_eval (x : ℚ) (e n : ℤ) (hx : x ≠ 0) (hlo : (2 : ℚ) ^ e ≤ |x|)
    (hhi : |x| < (2 : ℚ) ^ (e + 1)) (hmin : -1022 ≤ e) (hmax : e ≤ 1022)
    (hn : |x / 2 ^ (e - 52) - n| < 1 / 2) :
    roundFloat64 x = .finite ((n : ℚ) * 2 ^ (e - 52)) := by
  rw [(roundFloat64_normal x e hx hlo hhi hmin hmax).1, roundHalfEven_eq _ n hn]

theorem roundFloat64_rel (x : ℚ) (hx : x ≠ 0) (hlo : (2 : ℚ) ^ (-1022 : ℤ) ≤ |x|)
    (hhi : |x| < (2 : ℚ) ^ (1023 : ℤ)) :
    ∃ a : ℚ, roundFloat64 x = .finite (x * a) ∧ 1 - 2 ^ (-53 : ℤ) ≤ a ∧
      a ≤ 1 + 2 ^ (-53 : ℤ) := by
  have hpos : 0 < |x| := abs_pos.mpr hx
  have h1 : (2 : ℚ) ^ Int.log 2 |x| ≤ |x| := by
    exact_mod_cast Int.zpow_log_le_self (b := 2) (by norm_num) hpos
  have h2 : |x| < (2 : ℚ) ^ (Int.log 2 |x| + 1) := by
    exact_mod_cast Int.lt_zpow_succ_log_self (b := 2) (by norm_num) |x|
  have hmin : -1022 ≤ Int.log 2 |x| :=
    (Int.zpow_le_iff_le_log (by norm_num) hpos).mp (by exact_mod_cast hlo)
  have hmax : Int.log 2 |x| < 1023 :=
    (Int.lt_zpow_iff_log_lt (by norm_num) hpos).mp (by exact_mod_cast hhi)
  obtain ⟨hv, herr⟩ := roundFloat64_normal x (Int.log 2 |x|) hx h1 h2 hmin (by omega)
  generalize (roundHalfEven (x / 2 ^ (Int.log 2 |x| - 52)) : ℚ) *
    2 ^ (Int.log 2 |x| - 52) = v at hv herr
  have h53 : (2 : ℚ) ^ (Int.log 2 |x| - 53) = 2 ^ Int.log 2 |x| * 2 ^ (-53 : ℤ) := by
    rw [← zpow_add₀ (by norm_num : (2 : ℚ) ≠ 0)]
    rfl
  have hbound : |v - x| ≤ |x| * 2 ^ (-53 : ℤ) := by
    rw [h53] at herr
    exact herr.trans (mul_le_mul_of_nonneg_right h1 (by positivity))
  have hrel : |v / x - 1| ≤ 2 ^ (-53 : ℤ) := by
    have : v / x - 1 = (v - x) / x := by field_simp
    rw [this, abs_div, div_le_iff₀ hpos, mul_comm]
    exact hbound
  rw [abs_le] at hrel
  refine ⟨v / x, ?_, by linarith, by linarith⟩
  rw [hv, mul_div_cancel₀ v hx]

theorem roundFloat64_zero : roundFloat64 0 = .finite 0 := by
  simp [roundFloat64]

theorem rounding_chain (a1 a2 a3 a4 : ℚ)
    (h1 : 1 - 2 ^ (-53 : ℤ) ≤ a1 ∧ a1 ≤ 1 + 2 ^ (-53 : ℤ))
    (h2 : 1 - 2 ^ (-53 : ℤ) ≤ a2 ∧ a2 ≤ 1 + 2 ^ (-53 : ℤ))
    (h3 : 1 - 2 ^ (-53 : ℤ) ≤ a3 ∧ a3 ≤ 1 + 2 ^ (-53 : ℤ))
    (h4 : 1 - 2 ^ (-53 : ℤ) ≤ a4 ∧ a4 ≤ 1 + 2 ^ (-53 : ℤ)) :
    |a1 * a3 * a4 / a2 - 1| ≤ 2 ^ (-50 : ℤ) := by
  have he : (2 : ℚ) ^ (-53 : ℤ) = 1 / 9007199254740992 := by norm_num
  have hd : (2 : ℚ) ^ (-50 : ℤ) = 1 / 1125899906842624 := by norm_num
  rw [he] at h1 h2 h3 h4
  rw [hd]
  obtain ⟨l1, u1⟩ := h1
  obtain ⟨l2, u2⟩ := h2
  obtain ⟨l3, u3⟩ := h3
  obtain ⟨l4, u4⟩ := h4
  have p1 : (0 : ℚ) < a1 := by linarith
  have p2 : (0 : ℚ) < a2 := by linarith
  have p3 : (0 : ℚ) < a3 := by linarith
  have p4 : (0 : ℚ) < a4 := by linarith
  have hhi : a1 * a3 * a4 ≤
      (1 + 1 / 9007199254740992) * (1 + 1 / 9007199254740992) *
        (1 + 1 / 9007199254740992) :=
    mul_le_mul (mul_le_mul u1 u3 (le_of_lt p3) (by norm_num)) u4 (le_of_lt p4) (by norm_num)
  have hlo : (1 - 1 / 9007199254740992) * (1 - 1 / 9007199254740992) *
      (1 - 1 / 9007199254740992) ≤ a1 * a3 * a4 :=
    mul_le_mul (mul_le_mul l1 l3 (by norm_num) (le_of_lt p1)) l4 (by norm_num)
      (le_of_lt (mul_pos p1 p3))
  rw [abs_le]
  constructor
  · rw [le_sub_iff_add_le, le_div_iff₀ p2]
    have : (-(1 / 1125899906842624) + 1) * a2 ≤
        (-(1 / 1125899906842624) + 1) * (1 + 1 / 9007199254740992) :=
      mul_le_mul_of_nonneg_left u2 (by norm_num)
    have hnum : (-(1 / 1125899906842624 : ℚ) + 1) * (1 + 1 / 9007199254740992) ≤
        (1 - 1 / 9007199254740992) * (1 - 1 / 9007199254740992) *
          (1 - 1 / 9007199254740992) := by norm_num
    linarith
  · rw [sub_le_iff_le_add, div_le_iff₀ p2]
    have : (1 / 1125899906842624 + 1) * (1 - 1 / 9007199254740992) ≤
        (1 / 1125899906842624 + 1) * a2 :=
      mul_le_mul_of_nonneg_left l2 (by norm_num)
    have hnum : (1 + 1 / 9007199254740992 : ℚ) * (1 + 1 / 9007199254740992) *
        (1 + 1 / 9007199254740992) ≤
        (1 / 1125899906842624 + 1) * (1 - 1 / 9007199254740992) := by norm_num
    linarith

theorem ofInt_rel (i : Int) (hi : i ≠ 0) (hr : InIntRange i) :
    ∃ a : ℚ, Float64.ofInt i = .finite ((i : ℚ) * a) ∧ 1 - 2 ^ (-53 : ℤ) ≤ a ∧
      a ≤ 1 + 2 ^ (-53 : ℤ) := by
  unfold Float64.ofInt
  have hq : (i : ℚ) ≠ 0 := by exact_mod_cast hi
  have habs1 : (1 : ℚ) ≤ |(i : ℚ)| := by
    rw [← Int.cast_abs]
    exact_mod_cast Int.one_le_abs hi
  have habs2 : |(i : ℚ)| ≤ 2 ^ 63 := by
    rw [← Int.cast_abs]
    have : |i| ≤ 2 ^ 63 := by
      unfold InIntRange at hr
      rw [abs_le]
      omega
    exact_mod_cast this
  apply roundFloat64_rel _ hq
  · have : (2 : ℚ) ^ (-1022 : ℤ) ≤ 1 := zpow_le_one_of_nonpos₀ (by norm_num) (by norm_num)
    linarith
  · have : (2 : ℚ) ^ 63 < 2 ^ (1023 : ℤ) := by
      rw [← zpow_natCast]
      exact zpow_lt_zpow_right₀ (by norm_num) (by norm_num)
    linarith

theorem in_float64_range (w : ℚ) (hlo : (2 : ℚ) ^ (-70 : ℤ) ≤ |w|)
    (hhi : |w| ≤ (2 : ℚ) ^ (80 : ℤ)) :
    (2 : ℚ) ^ (-1022 : ℤ) ≤ |w| ∧ |w| < (2 : ℚ) ^ (1023 : ℤ) := by
  have h1 : (2 : ℚ) ^ (-1022 : ℤ) ≤ 2 ^ (-70 : ℤ) :=
    zpow_le_zpow_right₀ (by norm_num) (by norm_num)
  have h2 : (2 : ℚ) ^ (80 : ℤ) < 2 ^ (1023 : ℤ) :=
    zpow_lt_zpow_right₀ (by norm_num) (by norm_num)
  exact ⟨h1.trans hlo, lt_of_le_of_lt hhi h2⟩

theorem half_le_of_rel (a : ℚ) (h : 1 - 2 ^ (-53 : ℤ) ≤ a ∧ a ≤ 1 + 2 ^ (-53 : ℤ)) :
    1 / 2 ≤ a ∧ a ≤ 2 := by
  have he : (2 : ℚ) ^ (-53 : ℤ) = 1 / 9007199254740992 := by norm_num
  rw [he] at h
  constructor
  · linarith [h.1]
  · linarith [h.2]

theorem coveragePercentage_zero_covered (t : Int) (ht : 0 < t) (htr : InIntRange t) :
    coveragePercentage t 0 = .finite 0 := by
  obtain ⟨a2, ht2, b2⟩ := ofInt_rel t (ne_of_gt ht) htr
  have hb := half_le_of_rel a2 b2
  have htq : (0 : ℚ) < t := by exact_mod_cast ht
  have hta : (t : ℚ) * a2 ≠ 0 := ne_of_gt (mul_pos htq (by linarith [hb.1]))
  unfold coveragePercentage
  rw [if_pos ht, ht2]
  have h0 : Float64.ofInt 0 = .finite 0 := by
    unfold Float64.ofInt
    rw [Int.cast_zero, roundFloat64_zero]
  rw [h0]
  simp only [Float64.div, if_neg hta, zero_div, roundFloat64_zero, Float64.mul, zero_mul]

theorem coveragePercentage_pos_bound (t c : Int) (ht : 0 < t) (htr : InIntRange t)
    (hcr : InIntRange c) :
    ∃ v : ℚ, coveragePercentage t c = .finite v ∧
      |v - 100 * (c : ℚ) / (t : ℚ)| ≤ 2 ^ (-50 : ℤ) * |100 * (c : ℚ) / (t : ℚ)| := by
  by_cases hc : c = 0
  · subst hc
    refine ⟨0, coveragePercentage_zero_covered t ht htr, ?_⟩
    simp
  obtain ⟨a2, ht2, b2⟩ := ofInt_rel t (ne_of_gt ht) htr
  obtain ⟨a1, hc1, b1⟩ := ofInt_rel c hc hcr
  have hb1 := half_le_of_rel a1 b1
  have hb2 := half_le_of_rel a2 b2
  have htq : (0 : ℚ) < t := by exact_mod_cast ht
  have htq1 : (1 : ℚ) ≤ t := by exact_mod_cast ht
  have htq2 : (t : ℚ) ≤ 2 ^ 63 := by
    have : t ≤ 2 ^ 63 := by
      unfold InIntRange at htr
      omega
    exact_mod_cast this
  have hcq : (c : ℚ) ≠ 0 := by exact_mod_cast hc
  have hcabs1 : (1 : ℚ) ≤ |(c : ℚ)| := by
    rw [← Int.cast_abs]
    exact_mod_cast Int.one_le_abs hc
  have hcabs2 : |(c : ℚ)| ≤ 2 ^ 63 := by
    rw [← Int.cast_abs]
    have : |c| ≤ 2 ^ 63 := by
      unfold InIntRange at hcr
      rw [abs_le]
      omega
    exact_mod_cast this
  have pa1 : (0 : ℚ) < a1 := by linarith [hb1.1]
  have pa2 : (0 : ℚ) < a2 := by linarith [hb2.1]
  have hta : (t : ℚ) * a2 ≠ 0 := ne_of_gt (mul_pos htq pa2)
  -- the quotient
  have hy0 : (c : ℚ) * a1 / ((t : ℚ) * a2) ≠ 0 :=
    div_ne_zero (mul_ne_zero hcq (ne_of_gt pa1)) hta
  have hyabs : |(c : ℚ) * a1 / ((t : ℚ) * a2)| = |(c : ℚ)| * a1 / ((t : ℚ) * a2) := by
    rw [abs_div, abs_mul, abs_of_pos pa1, abs_of_pos (mul_pos htq pa2)]
  have hylo : (2 : ℚ) ^ (-65 : ℤ) ≤ |(c : ℚ) * a1 / ((t : ℚ) * a2)| := by
    rw [hyabs, le_div_iff₀ (mul_pos htq pa2)]
    have h1 : (t : ℚ) * a2 ≤ 2 ^ 63 * 2 :=
      mul_le_mul htq2 hb2.2 (le_of_lt pa2) (by norm_num)
    have h2 : (1 : ℚ) * (1 / 2) ≤ |(c : ℚ)| * a1 :=
      mul_le_mul hcabs1 hb1.1 (by norm_num) (by linarith)
    have h3 : (2 : ℚ) ^ (-65 : ℤ) * (2 ^ 63 * 2) ≤ 1 * (1 / 2) := by norm_num
    calc (2 : ℚ) ^ (-65 : ℤ) * ((t : ℚ) * a2)
        ≤ 2 ^ (-65 : ℤ) * (2 ^ 63 * 2) := mul_le_mul_of_nonneg_left h1 (by positivity)
      _ ≤ 1 * (1 / 2) := h3
      _ ≤ |(c : ℚ)| * a1 := h2
  have hyhi : |(c : ℚ) * a1 / ((t : ℚ) * a2)| ≤ (2 : ℚ) ^ (65 : ℤ) := by
    rw [hyabs, div_le_iff₀ (mul_pos htq pa2)]
    have h1 : (1 : ℚ) * (1 / 2) ≤ (t : ℚ) * a2 :=
      mul_le_mul htq1 hb2.1 (by norm_num) (le_of_lt htq)
    have h2 : |(c : ℚ)| * a1 ≤ 2 ^ 63 * 2 :=
      mul_le_mul hcabs2 hb1.2 (le_of_lt pa1) (by norm_num)
    have h3 : (2 : ℚ) ^ 63 * 2 ≤ 2 ^ (65 : ℤ) * (1 * (1 / 2)) := by norm_num
    calc |(c : ℚ)| * a1 ≤ 2 ^ 63 * 2 := h2
      _ ≤ 2 ^ (65 : ℤ) * (1 * (1 / 2)) := h3
      _ ≤ 2 ^ (65 : ℤ) * ((t : ℚ) * a2) := mul_le_mul_of_nonneg_left h1 (by positivity)
  have hyr := in_float64_range _
    ((zpow_le_zpow_right₀ (by norm_num : (1 : ℚ) ≤ 2) (by norm_num : (-70 : ℤ) ≤ -65)).trans
      hylo)
    (hyhi.trans (zpow_le_zpow_right₀ (by norm_num : (1 : ℚ) ≤ 2)
      (by norm_num : (65 : ℤ) ≤ 80)))
  obtain ⟨a3, hq, b3⟩ := roundFloat64_rel _ hy0 hyr.1 hyr.2
  have hb3 := half_le_of_rel a3 b3
  have pa3 : (0 : ℚ) < a3 := by linarith [hb3.1]
  -- the product with 100
  have hz0 : (c : ℚ) * a1 / ((t : ℚ) * a2) * a3 * 100 ≠ 0 :=
    mul_ne_zero (mul_ne_zero hy0 (ne_of_gt pa3)) (by norm_num)
  have hzabs : |(c : ℚ) * a1 / ((t : ℚ) * a2) * a3 * 100| =
      |(c : ℚ) * a1 / ((t : ℚ) * a2)| * a3 * 100 := by
    rw [abs_mul, abs_mul, abs_of_pos pa3, abs_of_pos (by norm_num : (0 : ℚ) < 100)]
  have hypos : (0 : ℚ) ≤ |(c : ℚ) * a1 / ((t : ℚ) * a2)| := abs_nonneg _
  have hzlo : (2 : ℚ) ^ (-70 : ℤ) ≤ |(c : ℚ) * a1 / ((t : ℚ) * a2) * a3 * 100| := by
    rw [hzabs]
    have h1 : (2 : ℚ) ^ (-65 : ℤ) * (1 / 2) ≤ |(c : ℚ) * a1 / ((t : ℚ) * a2)| * a3 :=
      mul_le_mul hylo hb3.1 (by norm_num) hypos
    have h2 : (2 : ℚ) ^ (-70 : ℤ) ≤ 2 ^ (-65 : ℤ) * (1 / 2) * 100 := by norm_num
    calc (2 : ℚ) ^ (-70 : ℤ) ≤ 2 ^ (-65 : ℤ) * (1 / 2) * 100 := h2
      _ ≤ |(c : ℚ) * a1 / ((t : ℚ) * a2)| * a3 * 100 :=
        mul_le_mul_of_nonneg_right h1 (by norm_num)
  have hzhi : |(c : ℚ) * a1 / ((t : ℚ) * a2) * a3 * 100| ≤ (2 : ℚ) ^ (80 : ℤ) := by
    rw [hzabs]
    have h1 : |(c : ℚ) * a1 / ((t : ℚ) * a2)| * a3 ≤ 2 ^ (65 : ℤ) * 2 :=
      mul_le_mul hyhi hb3.2 (le_of_lt pa3) (by positivity)
    have h2 : (2 : ℚ) ^ (65 : ℤ) * 2 * 100 ≤ 2 ^ (80 : ℤ) := by norm_num
    calc |(c : ℚ) * a1 / ((t : ℚ) * a2)| * a3 * 100 ≤ 2 ^ (65 : ℤ) * 2 * 100 :=
        mul_le_mul_of_nonneg_right h1 (by norm_num)
      _ ≤ 2 ^ (80 : ℤ) := h2
  have hzr := in_float64_range _ hzlo hzhi
  obtain ⟨a4, hp, b4⟩ := roundFloat64_rel _ hz0 hzr.1 hzr.2
  refine ⟨(c : ℚ) * a1 / ((t : ℚ) * a2) * a3 * 100 * a4, ?_, ?_⟩
  · unfold coveragePercentage
    rw [if_pos ht, hc1, ht2]
    simp only [Float64.div, if_neg hta, hq, Float64.mul, hp]
  · have hchain := rounding_chain a1 a2 a3 a4 b1 b2 b3 b4
    have hfac : (c : ℚ) * a1 / ((t : ℚ) * a2) * a3 * 100 * a4 - 100 * (c : ℚ) / (t : ℚ) =
        100 * (c : ℚ) / (t : ℚ) * (a1 * a3 * a4 / a2 - 1) := by
      field_simp
      ring
    rw [hfac, abs_mul, mul_comm]
    exact mul_le_mul_of_nonneg_right hchain (abs_nonneg _)

theorem roundFloat64_value (x v : ℚ) (e n : ℤ) (hx : x ≠ 0) (hlo : (2 : ℚ) ^ e ≤ |x|)
    (hhi : |x| < (2 : ℚ) ^ (e + 1)) (hmin : -1022 ≤ e) (hmax : e ≤ 1022)
    (hn : |x / 2 ^ (e - 52) - n| < 1 / 2) (hv : (n : ℚ) * 2 ^ (e - 52) = v) :
    roundFloat64 x = .finite v := by
  rw [roundFloat64_eval x e n hx hlo hhi hmin hmax hn, hv]

theorem ofInt_three : Float64.ofInt 3 = .finite 3 := by
  unfold Float64.ofInt
  exact roundFloat64_value _ _ 1 6755399441055744 (by norm_num) (by norm_num [abs_of_pos])
    (by norm_num [abs_of_pos]) (by norm_num) (by norm_num) (by norm_num) (by norm_num)

theorem ofInt_eight : Float64.ofInt 8 = .finite 8 := by
  unfold Float64.ofInt
  exact roundFloat64_value _ _ 3 4503599627370496 (by norm_num) (by norm_num [abs_of_pos])
    (by norm_num [abs_of_pos]) (by norm_num) (by norm_num) (by norm_num) (by norm_num)

theorem ofInt_seven : Float64.ofInt 7 = .finite 7 := by
  unfold Float64.ofInt
  exact roundFloat64_value _ _ 2 7881299347898368 (by norm_num) (by norm_num [abs_of_pos])
    (by norm_num [abs_of_pos]) (by norm_num) (by norm_num) (by norm_num) (by norm_num)

theorem ofInt_twentyFive : Float64.ofInt 25 = .finite 25 := by
  unfold Float64.ofInt
  exact roundFloat64_value _ _ 4 7036874417766400 (by norm_num) (by norm_num [abs_of_pos])
    (by norm_num [abs_of_pos]) (by norm_num) (by norm_num) (by norm_num) (by norm_num)

theorem ofInt_minus_three : Float64.ofInt (-3) = .finite (-3) := by
  unfold Float64.ofInt
  exact roundFloat64_value _ _ 1 (-6755399441055744) (by norm_num)
    (by norm_num [abs_of_neg]) (by norm_num [abs_of_neg]) (by norm_num) (by norm_num)
    (by norm_num) (by norm_num)

theorem coveragePercentage_three_of_eight : coveragePercentage 8 3 = .finite (75 / 2) := by
  unfold coveragePercentage
  rw [if_pos (by norm_num), ofInt_three, ofInt_eight]
  have hq : roundFloat64 (3 / 8) = .finite (3 / 8) :=
    roundFloat64_value _ _ (-2) 6755399441055744 (by norm_num) (by norm_num [abs_of_pos])
      (by norm_num [abs_of_pos]) (by norm_num) (by norm_num) (by norm_num) (by norm_num)
  have hp : roundFloat64 (3 / 8 * 100) = .finite (75 / 2) :=
    roundFloat64_value _ _ 5 5277655813324800 (by norm_num) (by norm_num [abs_of_pos])
      (by norm_num [abs_of_pos]) (by norm_num) (by norm_num) (by norm_num) (by norm_num)
  simp only [Float64.div, if_neg (by norm_num : (8 : ℚ) ≠ 0), hq, Float64.mul, hp]

theorem coveragePercentage_seven_of_twentyFive :
    coveragePercentage 25 7 = .finite (7881299347898369 / 281474976710656) := by
  unfold coveragePercentage
  rw [if_pos (by norm_num), ofInt_seven, ofInt_twentyFive]
  have hq : roundFloat64 (7 / 25) = .finite (1261007895663739 / 4503599627370496) :=
    roundFloat64_value _ _ (-2) 5044031582654956 (by norm_num) (by norm_num [abs_of_pos])
      (by norm_num [abs_of_pos]) (by norm_num) (by norm_num)
      (by norm_num [abs_lt]) (by norm_num)
  have hp : roundFloat64 (1261007895663739 / 4503599627370496 * 100) =
      .finite (7881299347898369 / 281474976710656) :=
    roundFloat64_value _ _ 4 7881299347898369 (by norm_num) (by norm_num [abs_of_pos])
      (by norm_num [abs_of_pos]) (by norm_num) (by norm_num)
      (by norm_num [abs_lt]) (by norm_num)
  simp only [Float64.div, if_neg (by norm_num : (25 : ℚ) ≠ 0), hq, Float64.mul, hp]

theorem unguarded_negative_total :
    Float64.mul (Float64.div (Float64.ofInt (-3)) (Float64.ofInt (-3))) (.finite 100) =
      .finite 100 := by
  rw [ofInt_minus_three]
  have hq : roundFloat64 (-3 / -3) = .finite 1 :=
    roundFloat64_value _ _ 0 4503599627370496 (by norm_num) (by norm_num [abs_of_pos])
      (by norm_num [abs_of_pos]) (by norm_num) (by norm_num) (by norm_num) (by norm_num)
  have hp : roundFloat64 (1 * 100) = .finite 100 :=
    roundFloat64_value _ _ 6 7036874417766400 (by norm_num) (by norm_num [abs_of_pos])
      (by norm_num [abs_of_pos]) (by norm_num) (by norm_num) (by norm_num) (by norm_num)
  simp only [Float64.div, if_neg (by norm_num : (-3 : ℚ) ≠ 0), hq, Float64.mul, hp]

theorem unguarded_zero_total :
    Float64.div (Float64.ofInt 0) (Float64.ofInt 0) = .nan := by
  have h0 : Float64.ofInt 0 = .finite 0 := by
    unfold Float64.ofInt
    rw [Int.cast_zero, roundFloat64_zero]
  rw [h0]
  simp [Float64.div]

theorem coveragePercentage_three_of_three : coveragePercentage 3 3 = .finite 100 := by
  unfold coveragePercentage
  rw [if_pos (by norm_num), ofInt_three]
  have hq : roundFloat64 (3 / 3) = .finite 1 :=
    roundFloat64_value _ _ 0 4503599627370496 (by norm_num) (by norm_num [abs_of_pos])
      (by norm_num [abs_of_pos]) (by norm_num) (by norm_num) (by norm_num) (by norm_num)
  have hp : roundFloat64 (1 * 100) = .finite 100 :=
    roundFloat64_value _ _ 6 7036874417766400 (by norm_num) (by norm_num [abs_of_pos])
      (by norm_num [abs_of_pos]) (by norm_num) (by norm_num) (by norm_num) (by norm_num)
  simp only [Float64.div, if_neg (by norm_num : (3 : ℚ) ≠ 0), hq, Float64.mul, hp]

theorem coveragePercentage_nonpos (t c : Int) (h : t ≤ 0) :
    coveragePercentage t c = .finite 0 := by
  unfold coveragePercentage
  rw [if_neg (by omega)]

theorem inIntRange_wrapInt (x : Int) : InIntRange (wrapInt x) := by
  unfold InIntRange wrapInt
  omega

/-- C4 as stated fails twice. For the record `f.go:1.1,2.2 -3 1` both counters
are `-3`: `totalStatements` is not 0 and the quotient of the claim, computed
as the code computes it for a positive total, is 100, while the percentage
reported and returned is 0. For a total of 25 with 7 covered the percentage
is `28.000000000000004` (`7881299347898369 / 2 ^ 48`), not `100 * 7 / 25 = 28`:
the quotient `7 / 25` is rounded before it is multiplied by 100. -/
theorem coveragePercentage_negative_total :
    (∃ r, displayCoverageStatistics statsFS "negative.out".toList = .ok r ∧
      r.totalStatements = -3 ∧ r.coveredStatements = -3 ∧
      r.coveragePercentage = .finite 0 ∧
      100 * (r.coveredStatements : ℚ) / (r.totalStatements : ℚ) = 100 ∧
      Float64.mul (Float64.div (Float64.ofInt r.coveredStatements)
        (Float64.ofInt r.totalStatements)) (.finite 100) = .finite 100 ∧
      calculateCoveragePercentage statsFS "negative.out".toList = .ok (.finite 0)) ∧
    (∃ r, displayCoverageStatistics roundingFS "seven.out".toList = .ok r ∧
      r.totalStatements = 25 ∧ r.coveredStatements = 7 ∧
      r.coveragePercentage = .finite (7881299347898369 / 281474976710656) ∧
      100 * (r.coveredStatements : ℚ) / (r.totalStatements : ℚ) = 28 ∧
      (28 : ℚ) < 7881299347898369 / 281474976710656 ∧
      calculateCoveragePercentage roundingFS "seven.out".toList =
        .ok (.finite (7881299347898369 / 281474976710656))) := by
  have ht : wrapInt (List.map lineStatements
      (List.tail ["mode: set".toList, "f.go:1.1,2.2 -3 1".toList])).sum = -3 := by decide
  have hc : wrapInt (List.map lineCovered
      (List.tail ["mode: set".toList, "f.go:1.1,2.2 -3 1".toList])).sum = -3 := by decide
  have hp : coveragePercentage (-3) (-3) = .finite 0 :=
    coveragePercentage_nonpos (-3) (-3) (by decide)
  have ht2 : wrapInt (List.map lineStatements (List.tail ["mode: set".toList,
      "f.go:1.1,2.2 7 1".toList, "f.go:3.1,4.2 18 0".toList])).sum = 25 := by decide
  have hc2 : wrapInt (List.map lineCovered (List.tail ["mode: set".toList,
      "f.go:1.1,2.2 7 1".toList, "f.go:3.1,4.2 18 0".toList])).sum = 7 := by decide
  constructor
  · refine ⟨⟨-3, -3, .finite 0⟩, ?_, rfl, rfl, rfl, by norm_num, unguarded_negative_total, ?_⟩
    · rw [display_eq statsFS _ "mode: set\nf.go:1.1,2.2 -3 1\n".toList
        ["mode: set".toList, "f.go:1.1,2.2 -3 1".toList] (by decide) (by decide), ht, hc, hp]
    · rw [calculate_eq statsFS _ "mode: set\nf.go:1.1,2.2 -3 1\n".toList
        ["mode: set".toList, "f.go:1.1,2.2 -3 1".toList] (by decide) (by decide) (by decide),
        ht, hc, hp]
  · refine ⟨⟨25, 7, .finite (7881299347898369 / 281474976710656)⟩, ?_, rfl, rfl, rfl,
      by norm_num, by norm_num, ?_⟩
    · rw [display_eq roundingFS _ "mode: set\nf.go:1.1,2.2 7 1\nf.go:3.1,4.2 18 0\n".toList
        ["mode: set".toList, "f.go:1.1,2.2 7 1".toList, "f.go:3.1,4.2 18 0".toList]
        (by decide) (by decide), ht2, hc2, coveragePercentage_seven_of_twentyFive]
    · rw [calculate_eq roundingFS _ "mode: set\nf.go:1.1,2.2 7 1\nf.go:3.1,4.2 18 0\n".toList
        ["mode: set".toList, "f.go:1.1,2.2 7 1".toList, "f.go:3.1,4.2 18 0".toList]
        (by decide) (by decide) (by decide), ht2, hc2, coveragePercentage_seven_of_twentyFive]

/-- C4, amended. The percentage of `displayCoverageStatistics` (both programs)
and of `calculateCoveragePercentage` is 0 when `totalStatements` is 0 or
negative, in particular for a profile that holds only its header. When
`totalStatements` is positive it is the `float64` value
`(float64(coveredStatements) / float64(totalStatements)) * 100`, a finite
number within the relative error `2 ^ -50` of
`100 * coveredStatements / totalStatements`. -/
theorem coveragePercentage_guarded (fs : FileSystem) (p : Path)
    (config : Project.Configuration) (content : GoString) (lines : List GoString)
    (hopen : fs p = some content) (hscan : scan content = ⟨lines, none⟩) :
    ∃ r, displayCoverageStatistics fs p = .ok r ∧
      Project.displayCoverageStatistics fs p config = .ok r ∧
      (r.totalStatements ≤ 0 → r.coveragePercentage = .finite 0) ∧
      (0 < r.totalStatements →
        r.coveragePercentage = Float64.mul (Float64.div (Float64.ofInt r.coveredStatements)
          (Float64.ofInt r.totalStatements)) (.finite 100) ∧
        ∃ v : ℚ, r.coveragePercentage = .finite v ∧
          |v - 100 * (r.coveredStatements : ℚ) / (r.totalStatements : ℚ)| ≤
            2 ^ (-50 : ℤ) * |100 * (r.coveredStatements : ℚ) / (r.totalStatements : ℚ)|) ∧
      (lines.tail = [] → r.totalStatements = 0 ∧ r.coveragePercentage = .finite 0) ∧
      ((∀ l ∈ lines.tail, badStatementCount l = false ∧ badExecutionCount l = false) →
        calculateCoveragePercentage fs p = .ok r.coveragePercentage) := by
  refine ⟨_, display_eq fs p content lines hopen hscan, ?_, ?_, ?_, ?_, ?_⟩
  · rw [project_display_eq, display_eq fs p content lines hopen hscan]
  · exact fun h => coveragePercentage_nonpos _ _ h
  · intro h
    refine ⟨?_, coveragePercentage_pos_bound _ _ h (inIntRange_wrapInt _) (inIntRange_wrapInt _)⟩
    show coveragePercentage _ _ = _
    unfold coveragePercentage
    rw [if_pos h]
  · intro h
    have h0 : wrapInt (List.map lineStatements lines.tail).sum = 0 := by
      rw [h]
      decide
    refine ⟨h0, ?_⟩
    exact coveragePercentage_nonpos (wrapInt (List.map lineStatements lines.tail).sum)
      (wrapInt (List.map lineCovered lines.tail).sum) (le_of_eq h0)
  · exact fun h => calculate_eq fs p content lines hopen hscan h

theorem coveragePercentage_guarded_witness :
    (∃ r, displayCoverageStatistics statsFS "two.out".toList = .ok r ∧
      r.totalStatements = 8 ∧ r.coveredStatements = 3 ∧
      r.coveragePercentage = .finite (75 / 2) ∧
      calculateCoveragePercentage statsFS "two.out".toList = .ok (.finite (75 / 2))) ∧
    (∃ r, displayCoverageStatistics statsFS "headeronly.out".toList = .ok r ∧
      r.totalStatements = 0 ∧ r.coveragePercentage = .finite 0) := by
  obtain ⟨r, h1, _, _, _, _, h6⟩ :=
    coveragePercentage_guarded statsFS "two.out".toList sampleConfig
      "mode: atomic\nf.go:1.1,2.2 3 1\nf.go:3.1,4.2 5 0\n".toList
      ["mode: atomic".toList, "f.go:1.1,2.2 3 1".toList, "f.go:3.1,4.2 5 0".toList]
      (by decide) (by decide)
  obtain ⟨r0, k1, _, _, _, k5, _⟩ :=
    coveragePercentage_guarded statsFS "headeronly.out".toList sampleConfig
      "mode: set\n".toList ["mode: set".toList] (by decide) (by decide)
  have h1b := display_eq statsFS "two.out".toList
      "mode: atomic\nf.go:1.1,2.2 3 1\nf.go:3.1,4.2 5 0\n".toList
      ["mode: atomic".toList, "f.go:1.1,2.2 3 1".toList, "f.go:3.1,4.2 5 0".toList]
      (by decide) (by decide)
  have ht : wrapInt (List.map lineStatements (List.tail ["mode: atomic".toList,
      "f.go:1.1,2.2 3 1".toList, "f.go:3.1,4.2 5 0".toList])).sum = 8 := by decide
  have hc : wrapInt (List.map lineCovered (List.tail ["mode: atomic".toList,
      "f.go:1.1,2.2 3 1".toList, "f.go:3.1,4.2 5 0".toList])).sum = 3 := by decide
  rw [h1, ht, hc, coveragePercentage_three_of_eight] at h1b
  have hr := Except.ok.inj h1b
  have hrt : r.totalStatements = 8 := by rw [hr]
  have hrc : r.coveredStatements = 3 := by rw [hr]
  have hpct : r.coveragePercentage = .finite (75 / 2) := by rw [hr]
  refine ⟨⟨r, h1, hrt, hrc, hpct, ?_⟩, ⟨r0, k1, k5 rfl⟩⟩
  rw [h6 (by decide), hpct]

/-- C9 as stated fails: the line `f.go:1.1,2.2 3abc 1` has three fields and a
statement count `3abc` that is no integer (`strconv.Atoi` rejects it), and
`calculateCoveragePercentage` returns no error: `fmt.Sscanf` reads the 3 and
leaves `abc` unread, so the result is the percentage 100. -/
theorem calculateCoveragePercentage_reads_leading_integer :
    scan "mode: set\nf.go:1.1,2.2 3abc 1\n".toList =
      ⟨["mode: set".toList, "f.go:1.1,2.2 3abc 1".toList], none⟩ ∧
    fields "f.go:1.1,2.2 3abc 1".toList =
      ["f.go:1.1,2.2".toList, "3abc".toList, "1".toList] ∧
    atoi "3abc".toList = none ∧
    sscanfInt "3abc".toList = some 3 ∧
    calculateCoveragePercentage roundingFS "suffix.out".toList = .ok (.finite 100) := by
  refine ⟨by decide, by decide, by decide, by decide, ?_⟩
  have ht : wrapInt (List.map lineStatements
      (List.tail ["mode: set".toList, "f.go:1.1,2.2 3abc 1".toList])).sum = 3 := by decide
  have hc : wrapInt (List.map lineCovered
      (List.tail ["mode: set".toList, "f.go:1.1,2.2 3abc 1".toList])).sum = 3 := by decide
  rw [calculate_eq roundingFS _ "mode: set\nf.go:1.1,2.2 3abc 1\n".toList
    ["mode: set".toList, "f.go:1.1,2.2 3abc 1".toList] (by decide) (by decide) (by decide),
    ht, hc, coveragePercentage_three_of_three]

/-! ## Selection of the variant -/

theorem insertDown_perm (less : Path → Path → Bool) (x : Path) (l : List Path) :
    (insertDown less x l).Perm (x :: l) := by
  induction l with
  | nil => exact List.Perm.refl _
  | cons y ys ih =>
    unfold insertDown
    by_cases h : less x y = true
    · rw [if_pos h]
      exact (List.Perm.cons y ih).trans (List.Perm.swap x y ys)
    · rw [if_neg h]

theorem foldl_insertDown_perm (less : Path → Path → Bool) (l acc : List Path) :
    (l.foldl (fun acc x => insertDown less x acc) acc).Perm (l.reverse ++ acc) := by
  induction l generalizing acc with
  | nil => simp
  | cons x xs ih =>
    rw [List.foldl_cons]
    refine (ih _).trans ?_
    rw [List.reverse_cons, List.append_assoc]
    exact List.Perm.append_left _ (insertDown_perm less x acc)

theorem insertionSort_perm (less : Path → Path → Bool) (l : List Path) :
    (insertionSort less l).Perm l := by
  unfold insertionSort
  refine (List.reverse_perm _).trans ?_
  have h := foldl_insertDown_perm less l []
  rw [List.append_nil] at h
  exact h.trans (List.reverse_perm l)

theorem insertDown_descending (key : Path → Int) (x : Path) (l : List Path)
    (hl : l.Pairwise (fun a b => key b ≤ key a)) :
    (insertDown (fun a b => decide (key a < key b)) x l).Pairwise
      (fun a b => key b ≤ key a) := by
  induction l with
  | nil => simp [insertDown]
  | cons y ys ih =>
    rw [List.pairwise_cons] at hl
    unfold insertDown
    by_cases h : key x < key y
    · simp only [h, decide_True, if_true]
      rw [List.pairwise_cons]
      refine ⟨?_, ih hl.2⟩
      intro a ha
      have hmem := (insertDown_perm (fun a b => decide (key a < key b)) x ys).subset ha
      rcases List.mem_cons.mp hmem with rfl | hmem
      · exact le_of_lt h
      · exact hl.1 a hmem
    · simp only [h, decide_False, Bool.false_eq_true, if_false]
      rw [List.pairwise_cons]
      refine ⟨?_, List.pairwise_cons.mpr hl⟩
      intro a ha
      rcases List.mem_cons.mp ha with rfl | hmem
      · exact not_lt.mp h
      · exact le_trans (hl.1 a hmem) (not_lt.mp h)

theorem foldl_insertDown_descending (key : Path → Int) (l acc : List Path)
    (hacc : acc.Pairwise (fun a b => key b ≤ key a)) :
    (l.foldl (fun acc x => insertDown (fun a b => decide (key a < key b)) x acc) acc).Pairwise
      (fun a b => key b ≤ key a) := by
  induction l generalizing acc with
  | nil => exact hacc
  | cons x xs ih =>
    rw [List.foldl_cons]
    exact ih _ (insertDown_descending key x acc hacc)

theorem insertionSort_spec : SortSliceSpec insertionSort where
  perm := insertionSort_perm
  sorted := by
    intro key l
    unfold insertionSort
    rw [List.pairwise_reverse]
    exact foldl_insertDown_descending key l [] List.Pairwise.nil

theorem numericEntries_eq_filter (stat : Path → Option Bool) (l : List Path) :
    numericEntries stat l =
      l.filter (fun e => stat e == some true && (atoi (filepathBase e)).isSome) := by
  induction l with
  | nil => rfl
  | cons e es ih =>
    unfold numericEntries
    cases hs : stat e with
    | none => simp [List.filter_cons, hs, ih]
    | some d =>
      cases d with
      | false => simp [List.filter_cons, hs, ih]
      | true =>
        cases ha : (atoi (filepathBase e)).isSome with
        | false => simp [List.filter_cons, hs, ha, ih]
        | true => simp [List.filter_cons, hs, ha, ih]

theorem pairwise_getLast {α : Type} (R : α → α → Prop) (l : List α) (x : α)
    (hl : l.Pairwise R) (hx : l.getLast? = some x) : ∀ a ∈ l, a = x ∨ R a x := by
  induction l with
  | nil => simp at hx
  | cons y ys ih =>
    rw [List.pairwise_cons] at hl
    intro a ha
    cases ys with
    | nil =>
      simp at hx
      simp at ha
      exact Or.inl (ha.trans hx)
    | cons z zs =>
      have hx2 : (z :: zs).getLast? = some x := by
        rw [List.getLast?_cons_cons] at hx
        exact hx
      have hxmem : x ∈ z :: zs := List.mem_of_getLast?_eq_some hx2
      rcases List.mem_cons.mp ha with rfl | ha2
      · exact Or.inr (hl.1 x hxmem)
      · exact ih hl.2 hx2 a ha2

theorem mem_numericEntries (stat : Path → Option Bool) (l : List Path) (e : Path) :
    e ∈ numericEntries stat l ↔
      e ∈ l ∧ stat e = some true ∧ (atoi (filepathBase e)).isSome = true := by
  rw [numericEntries_eq_filter, List.mem_filter]
  simp

theorem dirKey_of_atoi (e : Path) (v : Int) (h : atoi (filepathBase e) = some v) :
    dirKey e = v := by
  simp [dirKey, h]

theorem getSubdirectories_eq (sortSlice : (Path → Path → Bool) → List Path → List Path)
    (glob : Path → Except OSError (List Path)) (stat : Path → Option Bool)
    (dirPath : Path) (entries : List Path) (hglob : glob dirPath = .ok entries) :
    getSubdirectories sortSlice glob stat dirPath =
      .ok (sortSlice dirLess (numericEntries stat entries)) := by
  simp [getSubdirectories, hglob]

theorem sorted_last_is_max (sortSlice : (Path → Path → Bool) → List Path → List Path)
    (hsort : SortSliceSpec sortSlice) (stat : Path → Option Bool) (entries : List Path)
    (highest : Path)
    (hlast : (sortSlice dirLess (numericEntries stat entries)).getLast? = some highest) :
    highest ∈ entries ∧ stat highest = some true ∧
      ∃ v, atoi (filepathBase highest) = some v ∧
        ∀ e ∈ entries, stat e = some true →
          ∀ x, atoi (filepathBase e) = some x → x ≤ v := by
  have hmemS : highest ∈ sortSlice dirLess (numericEntries stat entries) :=
    List.mem_of_getLast?_eq_some hlast
  have hmem := (mem_numericEntries stat entries highest).mp
    ((hsort.perm dirLess _).subset hmemS)
  obtain ⟨v, hv⟩ := Option.isSome_iff_exists.mp hmem.2.2
  refine ⟨hmem.1, hmem.2.1, v, hv, ?_⟩
  intro e he hst x hx
  have heN : e ∈ numericEntries stat entries :=
    (mem_numericEntries stat entries e).mpr ⟨he, hst, by simp [hx]⟩
  have heS : e ∈ sortSlice dirLess (numericEntries stat entries) :=
    (hsort.perm dirLess _).symm.subset heN
  have hsorted := hsort.sorted dirKey (numericEntries stat entries)
  rcases pairwise_getLast _ _ highest hsorted hlast e heS with heq | hle
  · rw [heq, hv] at hx
    exact le_of_eq (Option.some.inj hx).symm
  · rw [dirKey_of_atoi e x hx, dirKey_of_atoi highest v hv] at hle
    exact hle

/-- C5. The variant chosen, the last element of the result of
`getSubdirectories`, is a directory whose name `strconv.Atoi` reads, and its
value is the largest among the directories with such a name; other names are
ignored. A variant is chosen as soon as one directory has such a name, and
when none has, the result is empty and the suite gives no work item. For the
names `3`, `10`, `2` and `abc` the variant chosen is `10`. -/
theorem getSubdirectories_last_is_max
    (sortSlice : (Path → Path → Bool) → List Path → List Path)
    (hsort : SortSliceSpec sortSlice) (w : World) (config : Configuration)
    (suitePath : Path) (entries : List Path) (hglob : w.glob suitePath = .ok entries) :
    ∃ dirs, getSubdirectories sortSlice w.glob w.stat suitePath = .ok dirs ∧
      (∀ highest, dirs.getLast? = some highest →
        highest ∈ entries ∧ w.stat highest = some true ∧
        ∃ v, atoi (filepathBase highest) = some v ∧
          ∀ e ∈ entries, w.stat e = some true →
            ∀ x, atoi (filepathBase e) = some x → x ≤ v) ∧
      ((∃ e ∈ entries, w.stat e = some true ∧ (atoi (filepathBase e)).isSome = true) →
        ∃ highest, dirs.getLast? = some highest) ∧
      ((∀ e ∈ entries, w.stat e = some true → atoi (filepathBase e) = none) →
        dirs = [] ∧ processSuite sortSlice w config suitePath = none) ∧
      (∀ ds, getSubdirectories sortSlice variantWorld.glob variantWorld.stat "suite".toList
          = .ok ds → ds.getLast? = some "suite/10".toList) := by
  refine ⟨_, getSubdirectories_eq sortSlice w.glob w.stat suitePath entries hglob,
    fun highest h => sorted_last_is_max sortSlice hsort w.stat entries highest h, ?_, ?_, ?_⟩
  · rintro ⟨e, he, hst, hnum⟩
    have heS : e ∈ sortSlice dirLess (numericEntries w.stat entries) :=
      (hsort.perm dirLess _).symm.subset ((mem_numericEntries w.stat entries e).mpr ⟨he, hst, hnum⟩)
    cases hl : (sortSlice dirLess (numericEntries w.stat entries)).getLast? with
    | none =>
      rw [List.getLast?_eq_none_iff] at hl
      rw [hl] at heS
      exact absurd heS (List.not_mem_nil e)
    | some h => exact ⟨h, rfl⟩
  · intro hnone
    have hempty : numericEntries w.stat entries = [] := by
      rw [List.eq_nil_iff_forall_not_mem]
      intro e he
      have h := (mem_numericEntries w.stat entries e).mp he
      rw [hnone e h.1 h.2.1] at h
      exact absurd h.2.2 (by simp)
    have hdirs : sortSlice dirLess (numericEntries w.stat entries) = [] := by
      rw [hempty]
      exact List.Perm.eq_nil (hsort.perm dirLess [])
    refine ⟨hdirs, ?_⟩
    simp [processSuite, getSubdirectories_eq sortSlice w.glob w.stat suitePath entries hglob,
      hdirs]
  · intro ds hds
    have hg : variantWorld.glob "suite".toList = .ok ["suite/10".toList, "suite/2".toList,
        "suite/3".toList, "suite/abc".toList] := rfl
    rw [getSubdirectories_eq sortSlice _ _ _ _ hg] at hds
    have hds2 := Except.ok.inj hds
    have h10 : "suite/10".toList ∈ sortSlice dirLess (numericEntries variantWorld.stat
        ["suite/10".toList, "suite/2".toList, "suite/3".toList, "suite/abc".toList]) :=
      (hsort.perm dirLess _).symm.subset (by decide)
    cases hl : ds.getLast? with
    | none =>
      rw [List.getLast?_eq_none_iff] at hl
      rw [hds2, hl] at h10
      exact absurd h10 (List.not_mem_nil _)
    | some h =>
      rw [← hds2] at hl
      obtain ⟨hmem, _, v, hv, hmax⟩ :=
        sorted_last_is_max sortSlice hsort variantWorld.stat _ h hl
      have h10v : (10 : Int) ≤ v :=
        hmax "suite/10".toList (by decide) (by decide) 10 (by decide)
      simp only [List.mem_cons, List.mem_singleton, List.not_mem_nil, or_false] at hmem
      rcases hmem with rfl | rfl | rfl | rfl
      · rfl
      · have h2 : atoi (filepathBase "suite/2".toList) = some 2 := by decide
        rw [h2] at hv
        have hv2 := Option.some.inj hv
        omega
      · have h3 : atoi (filepathBase "suite/3".toList) = some 3 := by decide
        rw [h3] at hv
        have hv3 := Option.some.inj hv
        omega
      · have ha : atoi (filepathBase "suite/abc".toList) = none := by decide
        rw [ha] at hv
        exact absurd hv (by simp)

theorem getSubdirectories_last_is_max_witness :
    ∃ dirs, getSubdirectories insertionSort variantWorld.glob variantWorld.stat
        "suite".toList = .ok dirs ∧ dirs.getLast? = some "suite/10".toList := by
  obtain ⟨dirs, hd, _, _, _, hsample⟩ :=
    getSubdirectories_last_is_max insertionSort insertionSort_spec variantWorld
      sampleReportConfig "suite".toList
      ["suite/10".toList, "suite/2".toList, "suite/3".toList, "suite/abc".toList] rfl
  exact ⟨dirs, hd, hsample dirs hd⟩

theorem parseInt_shape (name : GoString) (h : (parseInt name).isSome = true) :
    ∃ c ds, name = c :: ds ∧ (isDigit c = true ∨ c = '+' ∨ c = '-') ∧
      ∀ d ∈ ds, isDigit d = true := by
  cases name with
  | nil => simp [parseInt] at h
  | cons c rest =>
    refine ⟨c, rest, rfl, ?_⟩
    unfold parseInt at h
    by_cases hsign : (c == '+' || c == '-') = true
    · simp only [hsign, if_true] at h
      have hall : rest.all isDigit = true := by
        by_contra hna
        simp [hna] at h
      refine ⟨?_, fun d hd => List.all_eq_true.mp hall d hd⟩
      rcases Bool.or_eq_true_iff.mp hsign with hp | hm
      · exact Or.inr (Or.inl (by simpa using hp))
      · exact Or.inr (Or.inr (by simpa using hm))
    · simp only [hsign, Bool.false_eq_true, if_false] at h
      have hall : (c :: rest).all isDigit = true := by
        by_contra hna
        simp [hna] at h
      have hall2 := List.all_eq_true.mp hall
      exact ⟨Or.inl (hall2 c (List.mem_cons_self _ _)),
        fun d hd => hall2 d (List.mem_cons_of_mem _ hd)⟩

/-- C6 as stated fails: the directories `-1` and `+5` are kept, and `+5` is
the last of the result, the variant chosen. -/
theorem getSubdirectories_keeps_signed_names :
    getSubdirectories insertionSort signedWorld.glob signedWorld.stat "suite".toList =
      .ok ["suite/-1".toList, "suite/2".toList, "suite/+5".toList] :=
  rfl

/-- C6, amended. `getSubdirectories` keeps exactly the directories whose base
name `strconv.Atoi` reads, in ascending order of the value read. Such a name
is one sign `+` or `-` or a digit, followed by decimal digits only: a name
with another character is never kept, a name with a sign and a negative
value are. -/
theorem getSubdirectories_keeps_atoi_names
    (sortSlice : (Path → Path → Bool) → List Path → List Path)
    (hsort : SortSliceSpec sortSlice) (glob : Path → Except OSError (List Path))
    (stat : Path → Option Bool) (dirPath : Path) (entries : List Path)
    (hglob : glob dirPath = .ok entries) :
    ∃ dirs, getSubdirectories sortSlice glob stat dirPath = .ok dirs ∧
      dirs.Perm (entries.filter
        (fun e => stat e == some true && (atoi (filepathBase e)).isSome)) ∧
      dirs.Pairwise (fun a b => ∃ x y, atoi (filepathBase a) = some x ∧
        atoi (filepathBase b) = some y ∧ x ≤ y) ∧
      (∀ e ∈ dirs, ∃ c ds, filepathBase e = c :: ds ∧
        (isDigit c = true ∨ c = '+' ∨ c = '-') ∧ ∀ d ∈ ds, isDigit d = true) := by
  have hperm := hsort.perm dirLess (numericEntries stat entries)
  have hnum : ∀ e ∈ sortSlice dirLess (numericEntries stat entries),
      (atoi (filepathBase e)).isSome = true :=
    fun e he => ((mem_numericEntries stat entries e).mp (hperm.subset he)).2.2
  refine ⟨_, getSubdirectories_eq sortSlice glob stat dirPath entries hglob, ?_, ?_, ?_⟩
  · rw [← numericEntries_eq_filter]
    exact hperm
  · refine (List.Pairwise.and_mem.mp (hsort.sorted dirKey (numericEntries stat entries))).imp ?_
    intro a b hab
    obtain ⟨ha, hb, hle⟩ := hab
    obtain ⟨x, hx⟩ := Option.isSome_iff_exists.mp (hnum a ha)
    obtain ⟨y, hy⟩ := Option.isSome_iff_exists.mp (hnum b hb)
    refine ⟨x, y, hx, hy, ?_⟩
    rw [dirKey_of_atoi a x hx, dirKey_of_atoi b y hy] at hle
    exact hle
  · intro e he
    exact parseInt_shape _ (hnum e he)

theorem getSubdirectories_keeps_atoi_names_witness :
    ∃ dirs, getSubdirectories insertionSort signedWorld.glob signedWorld.stat
        "suite".toList = .ok dirs ∧
      dirs.Perm (["suite/+5".toList, "suite/-1".toList, "suite/2".toList].filter
        (fun e => signedWorld.stat e == some true && (atoi (filepathBase e)).isSome)) := by
  obtain ⟨dirs, hd, hp, _, _⟩ :=
    getSubdirectories_keeps_atoi_names insertionSort insertionSort_spec signedWorld.glob
      signedWorld.stat "suite".toList
      ["suite/+5".toList, "suite/-1".toList, "suite/2".toList] rfl
  exact ⟨dirs, hd, hp⟩

/-! ## The path of a coverage profile -/

/-- C7 as stated fails: the test files `x-y_test.go` and `x_y_test.go` are
given the same coverage profile path. -/
theorem coverageProfilePath_collision :
    "suite/1/x-y_test.go".toList ≠ "suite/1/x_y_test.go".toList ∧
    coverageProfilePath joinPath "report".toList "suite/1/x-y_test.go".toList =
      "report/coverage_x_y_test.go.out".toList ∧
    coverageProfilePath joinPath "report".toList "suite/1/x_y_test.go".toList =
      "report/coverage_x_y_test.go.out".toList := by
  decide

theorem sanitizeFilename_of_base (p q : Path) (h : filepathBase p = filepathBase q) :
    sanitizeFilename p = sanitizeFilename q := by
  unfold sanitizeFilename
  rw [h]

/-- C7, amended. The path of the coverage profile is a function of the
report directory and of `sanitizeFilename(testFilePath)`: test files with the
same sanitized name are given the same path, and the file names
`coverage_<name>.out` of two test files, and their paths in one report
directory, are equal exactly when their sanitized names are. -/
theorem coverageProfilePath_by_sanitized_name (join : Path → Path → Path)
    (reportDir p q : Path) :
    (sanitizeFilename p = sanitizeFilename q →
      coverageProfilePath join reportDir p = coverageProfilePath join reportDir q) ∧
    (coverageProfileName p = coverageProfileName q ↔
      sanitizeFilename p = sanitizeFilename q) ∧
    (coverageProfilePath joinPath reportDir p = coverageProfilePath joinPath reportDir q ↔
      sanitizeFilename p = sanitizeFilename q) := by
  have hname : coverageProfileName p = coverageProfileName q ↔
      sanitizeFilename p = sanitizeFilename q := by
    unfold coverageProfileName
    constructor
    · intro h
      rw [List.append_assoc, List.append_assoc] at h
      exact List.append_cancel_right (List.append_cancel_left h)
    · intro h
      rw [h]
  refine ⟨?_, hname, ?_⟩
  · intro h
    unfold coverageProfilePath
    rw [hname.mpr h]
  · unfold coverageProfilePath joinPath
    rw [← hname]
    constructor
    · intro h
      exact List.cons_injective (List.append_cancel_left h)
    · intro h
      rw [h]

/-! ## Collecting a profile -/

/-- C10 as stated fails: the tests of the suite pass and leave a profile of 27
bytes, which meets the size threshold, but `calculateCoveragePercentage` fails
on it and the profile is not appended. -/
theorem processSuite_percentage_failure_excludes :
    brokenWorld.goTest "suite/1".toList "report/coverage_foo_test.go.out".toList = true ∧
    brokenWorld.files "report/coverage_foo_test.go.out".toList = some brokenProfile ∧
    byteLen brokenProfile = 27 ∧
    calculateCoveragePercentage brokenWorld.files "report/coverage_foo_test.go.out".toList =
      .error .parseStatementCount ∧
    processSuite insertionSort brokenWorld sampleReportConfig "suite".toList = none :=
  ⟨rfl, rfl, by decide, rfl, rfl⟩

/-- C10, amended. Once the tests of a work item have run without error, its
profile is appended exactly when `calculateCoveragePercentage` succeeds on it
and the file holds at least 10 bytes; the percentage computed plays no part,
but a failure to compute it keeps the profile out. -/
theorem processSuite_appends_iff (sortSlice : (Path → Path → Bool) → List Path → List Path)
    (w : World) (config : Configuration) (suitePath : Path) (dirs : List Path)
    (highest testFile : Path)
    (hdirs : getSubdirectories sortSlice w.glob w.stat suitePath = .ok dirs)
    (hlast : dirs.getLast? = some highest)
    (htest : findTestFile w highest = .ok testFile) (hne : testFile ≠ [])
    (hrun : w.goTest highest (coverageProfilePath w.join config.ReportDir testFile) = true) :
    (processSuite sortSlice w config suitePath =
        some (coverageProfilePath w.join config.ReportDir testFile) ↔
      (∃ pct, calculateCoveragePercentage w.files
          (coverageProfilePath w.join config.ReportDir testFile) = .ok pct) ∧
        ∃ content, w.files (coverageProfilePath w.join config.ReportDir testFile) = some content ∧
          10 ≤ byteLen content) ∧
    (processSuite sortSlice w config suitePath ≠
        some (coverageProfilePath w.join config.ReportDir testFile) →
      processSuite sortSlice w config suitePath = none) := by
  have hempty : testFile.isEmpty = false := by
    cases testFile with
    | nil => exact absurd rfl hne
    | cons _ _ => rfl
  have hstep : processSuite sortSlice w config suitePath =
      match calculateCoveragePercentage w.files
          (coverageProfilePath w.join config.ReportDir testFile) with
      | .error _ => none
      | .ok _ =>
        match w.files (coverageProfilePath w.join config.ReportDir testFile) with
        | none => none
        | some content =>
          if byteLen content < 10 then none
          else some (coverageProfilePath w.join config.ReportDir testFile) := by
    simp [processSuite, hdirs, hlast, htest, hempty, runTestWithCoverage, hrun]
  rw [hstep]
  cases hcalc : calculateCoveragePercentage w.files
      (coverageProfilePath w.join config.ReportDir testFile) with
  | error e => simp
  | ok pct =>
    cases hfile : w.files (coverageProfilePath w.join config.ReportDir testFile) with
    | none => simp
    | some content =>
      by_cases hsize : byteLen content < 10
      · simp [hsize]
      · simpa [hsize] using Nat.le_of_not_lt hsize

theorem processSuite_appends_iff_witness :
    processSuite insertionSort passingWorld sampleReportConfig "suite".toList =
      some "report/coverage_foo_test.go.out".toList :=
  (processSuite_appends_iff insertionSort passingWorld sampleReportConfig "suite".toList
    ["suite/1".toList] "suite/1".toList "suite/1/foo_test.go".toList
    rfl rfl rfl (by decide) rfl).1.mpr
    ⟨⟨_, rfl⟩, sampleA, rfl, by decide⟩

/-! ## Merging no profile -/

/-- C11. Called with no profile, `mergeCoverageProfiles` fails with the error
`no coverage profiles to merge`, and the destination is neither created nor
written; called with one profile or more it does not return that error. -/
theorem mergeCoverageProfiles_empty (fs : FileSystem) (canCreate : Path → Bool)
    (dst : Path) :
    mergeCoverageProfiles fs canCreate [] dst = ⟨some .noProfiles, false, []⟩ ∧
    MergeError.text .noProfiles = "no coverage profiles to merge".toList ∧
    (∀ (p : Path) (ps : List Path),
      (mergeCoverageProfiles fs canCreate (p :: ps) dst).err ≠ some .noProfiles ∧
      ((mergeCoverageProfiles fs canCreate (p :: ps) dst).err = none →
        (mergeCoverageProfiles fs canCreate (p :: ps) dst).created = true)) := by
  refine ⟨rfl, rfl, ?_⟩
  intro p ps
  unfold mergeCoverageProfiles
  cases hc : canCreate dst <;> simp

/-! ## Reading back what a merge wrote -/

theorem renderLines_append (a b : List GoString) :
    renderLines (a ++ b) = renderLines a ++ renderLines b := by
  induction a with
  | nil => rfl
  | cons l ls ih => simp [renderLines, ih]

theorem splitLinesAux_line (l rest cur : GoString) (hl : '\n' ∉ l) :
    splitLinesAux (l ++ '\n' :: rest) cur = (cur ++ l) :: splitLinesAux rest [] := by
  induction l generalizing cur with
  | nil => simp [splitLinesAux]
  | cons c cs ih =>
    have hc : c ≠ '\n' := fun h => hl (h ▸ List.mem_cons_self _ _)
    have hcs : '\n' ∉ cs := fun h => hl (List.mem_cons_of_mem _ h)
    simp [splitLinesAux, hc, ih _ hcs]

theorem splitLinesAux_renderLines (ls : List GoString) (h : ∀ l ∈ ls, '\n' ∉ l) :
    splitLinesAux (renderLines ls) [] = ls := by
  induction ls with
  | nil => rfl
  | cons l ls ih =>
    rw [renderLines, splitLinesAux_line l _ [] (h l (List.mem_cons_self _ _)),
      ih (fun x hx => h x (List.mem_cons_of_mem _ hx))]
    simp

theorem splitLinesAux_noLF (content cur : GoString) (hcur : '\n' ∉ cur) :
    ∀ piece ∈ splitLinesAux content cur, '\n' ∉ piece := by
  induction content generalizing cur with
  | nil =>
    intro piece hp
    unfold splitLinesAux at hp
    split at hp
    · exact absurd hp (List.not_mem_nil _)
    · rw [List.mem_singleton] at hp
      rw [hp]
      exact hcur
  | cons c cs ih =>
    intro piece hp
    unfold splitLinesAux at hp
    by_cases hc : c = '\n'
    · rw [if_pos hc] at hp
      rcases List.mem_cons.mp hp with h | h
      · rw [h]
        exact hcur
      · exact ih [] (List.not_mem_nil _) piece h
    · rw [if_neg hc] at hp
      refine ih (cur ++ [c]) ?_ piece hp
      intro hmem
      rcases List.mem_append.mp hmem with h | h
      · exact hcur h
      · exact hc (List.mem_singleton.mp h).symm

theorem dropCR_sublist (l : GoString) : ∃ t, l = dropCR l ++ t := by
  unfold dropCR
  by_cases h : l.getLast? = some '\r'
  · rw [if_pos h]
    exact ⟨['\r'], (List.dropLast_append_getLast? '\r' (by simp [h])).symm⟩
  · rw [if_neg h]
    exact ⟨[], by simp⟩

theorem dropCR_noLF (l : GoString) (h : '\n' ∉ l) : '\n' ∉ dropCR l := by
  obtain ⟨t, ht⟩ := dropCR_sublist l
  intro hmem
  apply h
  rw [ht]
  exact List.mem_append_left _ hmem

theorem byteLen_dropCR (l : GoString) : byteLen (dropCR l) ≤ byteLen l := by
  obtain ⟨t, ht⟩ := dropCR_sublist l
  have : byteLen l = byteLen (dropCR l) + byteLen t := by
    conv_lhs => rw [ht]
    simp [byteLen]
  omega

theorem scanTokens_lines (raws : List GoString) :
    ∀ l ∈ (scanTokens raws).lines,
      ∃ raw ∈ raws, l = dropCR raw ∧ byteLen raw < maxScanTokenSize := by
  induction raws with
  | nil =>
    intro l hl
    simp [scanTokens] at hl
  | cons raw rest ih =>
    intro l hl
    unfold scanTokens at hl
    by_cases hlong : maxScanTokenSize ≤ byteLen raw
    · rw [if_pos hlong] at hl
      exact absurd hl (List.not_mem_nil _)
    · rw [if_neg hlong] at hl
      rcases List.mem_cons.mp hl with h | h
      · exact ⟨raw, List.mem_cons_self _ _, h, Nat.lt_of_not_le hlong⟩
      · obtain ⟨r, hr, hrl, hrs⟩ := ih l h
        exact ⟨r, List.mem_cons_of_mem _ hr, hrl, hrs⟩

theorem scan_lines_fit (content l : GoString) (hl : l ∈ (scan content).lines) :
    '\n' ∉ l ∧ byteLen l < maxScanTokenSize := by
  obtain ⟨raw, hraw, hlr, hshort⟩ := scanTokens_lines _ l hl
  have hno := splitLinesAux_noLF content [] (List.not_mem_nil _) raw hraw
  rw [hlr]
  exact ⟨dropCR_noLF raw hno, lt_of_le_of_lt (byteLen_dropCR raw) hshort⟩

theorem scanTokens_short (ls : List GoString) (h : ∀ l ∈ ls, byteLen l < maxScanTokenSize) :
    scanTokens ls = ⟨ls.map dropCR, none⟩ := by
  induction ls with
  | nil => rfl
  | cons l ls ih =>
    have hl := h l (List.mem_cons_self _ _)
    unfold scanTokens
    rw [if_neg (Nat.not_le.mpr hl), ih (fun x hx => h x (List.mem_cons_of_mem _ hx))]
    simp

theorem scan_renderLines (ls : List GoString)
    (h : ∀ l ∈ ls, '\n' ∉ l ∧ byteLen l < maxScanTokenSize) :
    scan (renderLines ls) = ⟨ls.map dropCR, none⟩ := by
  unfold scan
  rw [splitLinesAux_renderLines ls (fun l hl => (h l hl).1),
    scanTokens_short ls (fun l hl => (h l hl).2)]

theorem fieldsAux_carriageReturn (s cur : GoString) :
    fieldsAux (s ++ ['\r']) cur = fieldsAux s cur := by
  induction s generalizing cur with
  | nil =>
    have hsp : isSpace '\r' = true := by decide
    simp [fieldsAux, hsp]
  | cons c cs ih =>
    have hcons : (c :: cs) ++ ['\r'] = c :: (cs ++ ['\r']) := rfl
    rw [hcons]
    unfold fieldsAux
    rw [ih, ih]

theorem fields_dropCR (l : GoString) : fields (dropCR l) = fields l := by
  unfold dropCR
  by_cases h : l.getLast? = some '\r'
  · rw [if_pos h]
    have hl : l.dropLast ++ ['\r'] = l := List.dropLast_append_getLast? '\r' (by simp [h])
    conv_rhs => rw [← hl]
    unfold fields
    rw [fieldsAux_carriageReturn]
  · rw [if_neg h]

theorem lineStatements_dropCR (l : GoString) :
    lineStatements (dropCR l) = lineStatements l ∧ lineCovered (dropCR l) = lineCovered l := by
  unfold lineStatements lineCovered
  rw [fields_dropCR]
  exact ⟨rfl, rfl⟩

theorem sums_dropCR (ls : List GoString) :
    ((ls.map dropCR).map lineStatements).sum = (ls.map lineStatements).sum ∧
    ((ls.map dropCR).map lineCovered).sum = (ls.map lineCovered).sum := by
  induction ls with
  | nil => exact ⟨rfl, rfl⟩
  | cons l ls ih =>
    simp only [List.map_cons, List.sum_cons, (lineStatements_dropCR l).1,
      (lineStatements_dropCR l).2, ih.1, ih.2, and_self]

/-! ## Statistics of a merged profile -/

theorem recordsOf_profile (fs : FileSystem) (p : Path) (content hdr : GoString)
    (recs : List GoString) (hfs : fs p = some content)
    (hscan : scan content = ⟨hdr :: recs, none⟩) : recordsOf fs p = recs := by
  simp [recordsOf, hfs, hscan]

theorem mergeProfiles_same_mode (fs : FileSystem) (ps : List Path) (st : MergeState)
    (hw : st.headerWritten = true) (hp : ∀ q ∈ ps, IsProfile fs st.coverageMode q) :
    mergeProfiles fs ps st = { st with out := st.out ++ renderLines (allRecords fs ps) } := by
  induction ps generalizing st with
  | nil => simp [mergeProfiles, allRecords, renderLines]
  | cons q qs ih =>
    obtain ⟨content, hdr, recs, hfs, hscan, hhdr, hmode, hrecs⟩ := hp q (List.mem_cons_self _ _)
    have hline : mergeLines (hdr :: recs) st =
        { st with out := st.out ++ renderLines recs } := by
      rw [← mergeLines_records recs st hrecs]
      simp [mergeLines, hhdr, hw, hmode]
    simp only [mergeProfiles, hfs, hscan, hline]
    have hrest := ih ⟨st.coverageMode, st.headerWritten, st.out ++ renderLines recs⟩ hw
      (fun x hx => hp x (List.mem_cons_of_mem _ hx))
    rw [hrest]
    simp [allRecords, recordsOf_profile fs q content hdr recs hfs hscan, renderLines_append]

theorem allRecords_fit (fs : FileSystem) (ps : List Path) :
    ∀ l ∈ allRecords fs ps, '\n' ∉ l ∧ byteLen l < maxScanTokenSize := by
  induction ps with
  | nil =>
    intro l hl
    exact absurd hl (List.not_mem_nil _)
  | cons p ps ih =>
    intro l hl
    unfold allRecords at hl
    rcases List.mem_append.mp hl with h | h
    · unfold recordsOf at h
      cases hfs : fs p with
      | none =>
        rw [hfs] at h
        exact absurd h (List.not_mem_nil _)
      | some content =>
        rw [hfs] at h
        exact scan_lines_fit content l (List.mem_of_mem_tail h)
    · exact ih l h

theorem sum_allRecords (fs : FileSystem) (f : GoString → Int) (ps : List Path) :
    ((allRecords fs ps).map f).sum = (ps.map (fun q => ((recordsOf fs q).map f).sum)).sum := by
  induction ps with
  | nil => rfl
  | cons p ps ih => simp [allRecords, ih]

theorem wrapInt_sum_wrapInt (xs : List Path) (f : Path → Int) :
    wrapInt ((xs.map (fun x => wrapInt (f x))).sum) = wrapInt ((xs.map f).sum) := by
  induction xs with
  | nil => rfl
  | cons x xs ih =>
    simp only [List.map_cons, List.sum_cons]
    rw [wrapInt_add_wrapInt, add_comm (f x), ← wrapInt_add_wrapInt, ih, wrapInt_add_wrapInt,
      add_comm]

theorem totalOf_profile (fs : FileSystem) (m : GoString) (p : Path)
    (h : IsProfile fs m p) :
    (∃ r, displayCoverageStatistics fs p = .ok r) ∧
    totalOf fs p = wrapInt ((recordsOf fs p).map lineStatements).sum ∧
    coveredOf fs p = wrapInt ((recordsOf fs p).map lineCovered).sum := by
  obtain ⟨content, hdr, recs, hfs, hscan, _, _, _⟩ := h
  have hd := display_eq fs p content (hdr :: recs) hfs hscan
  rw [List.tail_cons] at hd
  refine ⟨⟨_, hd⟩, ?_, ?_⟩
  · simp [totalOf, hd, recordsOf_profile fs p content hdr recs hfs hscan]
  · simp [coveredOf, hd, recordsOf_profile fs p content hdr recs hfs hscan]

theorem merged_written (fs : FileSystem) (canCreate : Path → Bool) (p dst : Path)
    (ps : List Path) (m content hdr : GoString) (recs : List GoString)
    (hfs : fs p = some content) (hscan : scan content = ⟨hdr :: recs, none⟩)
    (hhdr : hasPrefix hdr modePrefix = true) (hmode : modeOf hdr = m)
    (hrecs : ∀ l ∈ recs, hasPrefix l modePrefix = false)
    (hps : ∀ q ∈ ps, IsProfile fs m q) (hcreate : canCreate dst = true) :
    (mergeCoverageProfiles fs canCreate (p :: ps) dst).written =
      renderLines (hdr :: allRecords fs (p :: ps)) := by
  have hfirst : mergeLines (hdr :: recs) ⟨[], false, []⟩ =
      ⟨m, true, hdr ++ ['\n'] ++ renderLines recs⟩ := by
    rw [mergeLines_first_header hdr recs hhdr, mergeLines_records recs _ hrecs, hmode]
  simp only [mergeCoverageProfiles, mergeProfiles, hfs, hscan, hfirst, hcreate]
  rw [mergeProfiles_same_mode fs ps _ rfl hps]
  simp [allRecords, recordsOf_profile fs p content hdr recs hfs hscan, renderLines,
    renderLines_append]

/-- C13. For a sequence of one or more profiles in one mode, each with its
header as first line and no other line that starts with `mode:`, the
`totalStatements` and `coveredStatements` that `displayCoverageStatistics`
reports for the file written by `mergeCoverageProfiles` are the sums of those
it reports for the profiles. The sums are those of Go's `int`: they are the
exact sums when these fit 64 bits. -/
theorem statistics_additive_over_merge (fs fsOut : FileSystem) (canCreate : Path → Bool)
    (p dst : Path) (ps : List Path) (m : GoString)
    (hprof : ∀ q ∈ p :: ps, IsProfile fs m q) (hcreate : canCreate dst = true)
    (hout : fsOut dst = some (mergeCoverageProfiles fs canCreate (p :: ps) dst).written) :
    (∀ q ∈ p :: ps, ∃ r, displayCoverageStatistics fs q = .ok r) ∧
    ∃ r, displayCoverageStatistics fsOut dst = .ok r ∧
      r.totalStatements = wrapInt (((p :: ps).map (totalOf fs)).sum) ∧
      r.coveredStatements = wrapInt (((p :: ps).map (coveredOf fs)).sum) ∧
      (InIntRange (((p :: ps).map (totalOf fs)).sum) →
        r.totalStatements = ((p :: ps).map (totalOf fs)).sum) ∧
      (InIntRange (((p :: ps).map (coveredOf fs)).sum) →
        r.coveredStatements = ((p :: ps).map (coveredOf fs)).sum) := by
  obtain ⟨content, hdr, recs, hfs, hscan, hhdr, hmode, hrecs⟩ :=
    hprof p (List.mem_cons_self _ _)
  have hwritten := merged_written fs canCreate p dst ps m content hdr recs hfs hscan hhdr
    hmode hrecs (fun q hq => hprof q (List.mem_cons_of_mem _ hq)) hcreate
  have hhdrfit : '\n' ∉ hdr ∧ byteLen hdr < maxScanTokenSize :=
    scan_lines_fit content hdr (by rw [hscan]; exact List.mem_cons_self _ _)
  have hfit : ∀ l ∈ hdr :: allRecords fs (p :: ps),
      '\n' ∉ l ∧ byteLen l < maxScanTokenSize := by
    intro l hl
    rcases List.mem_cons.mp hl with h | h
    · rw [h]
      exact hhdrfit
    · exact allRecords_fit fs (p :: ps) l h
  have hscanOut := scan_renderLines _ hfit
  rw [← hwritten] at hscanOut
  have hd := display_eq fsOut dst _ _ hout hscanOut
  rw [List.map_cons, List.tail_cons, (sums_dropCR _).1, (sums_dropCR _).2,
    sum_allRecords, sum_allRecords] at hd
  have htot : ∀ (qs : List Path), (∀ q ∈ qs, IsProfile fs m q) →
      qs.map (totalOf fs) =
        qs.map (fun q => wrapInt ((recordsOf fs q).map lineStatements).sum) ∧
      qs.map (coveredOf fs) =
        qs.map (fun q => wrapInt ((recordsOf fs q).map lineCovered).sum) := by
    intro qs hqs
    constructor
    · exact List.map_congr_left (fun q hq => (totalOf_profile fs m q (hqs q hq)).2.1)
    · exact List.map_congr_left (fun q hq => (totalOf_profile fs m q (hqs q hq)).2.2)
  obtain ⟨ht, hc⟩ := htot (p :: ps) hprof
  have hT : wrapInt (((p :: ps).map (totalOf fs)).sum) =
      wrapInt ((List.map (fun q => ((recordsOf fs q).map lineStatements).sum) (p :: ps)).sum) := by
    rw [ht, wrapInt_sum_wrapInt]
  have hC : wrapInt (((p :: ps).map (coveredOf fs)).sum) =
      wrapInt ((List.map (fun q => ((recordsOf fs q).map lineCovered).sum) (p :: ps)).sum) := by
    rw [hc, wrapInt_sum_wrapInt]
  refine ⟨fun q hq => (totalOf_profile fs m q (hprof q hq)).1, _, hd, hT.symm, hC.symm, ?_, ?_⟩
  · intro hr
    exact hT.symm.trans (wrapInt_of_inRange _ hr)
  · intro hr
    exact hC.symm.trans (wrapInt_of_inRange _ hr)

theorem statistics_additive_over_merge_witness :
    ∃ r, displayCoverageStatistics sampleMergedFS "merged.out".toList = .ok r ∧
      r.totalStatements = 8 ∧ r.coveredStatements = 3 ∧
      totalOf sampleFS "a.out".toList = 3 ∧ totalOf sampleFS "b.out".toList = 5 ∧
      coveredOf sampleFS "a.out".toList = 3 ∧ coveredOf sampleFS "b.out".toList = 0 := by
  have hprof : ∀ q ∈ ["a.out".toList, "b.out".toList], IsProfile sampleFS "set".toList q := by
    intro q hq
    simp only [List.mem_cons, List.mem_singleton, List.not_mem_nil, or_false] at hq
    rcases hq with rfl | rfl
    · exact ⟨sampleA, "mode: set".toList, ["f.go:1.1,2.2 3 1".toList],
        by decide, by decide, by decide, by decide, by decide⟩
    · exact ⟨sampleB, "mode:set".toList, ["g.go:1.1,2.2 5 0".toList],
        by decide, by decide, by decide, by decide, by decide⟩
  obtain ⟨_, r, hr, _, _, ht, hc⟩ :=
    statistics_additive_over_merge sampleFS sampleMergedFS (fun _ => true) "a.out".toList
      "merged.out".toList ["b.out".toList] "set".toList hprof rfl (by decide)
  exact ⟨r, hr, (ht (by decide)).trans (by decide), (hc (by decide)).trans (by decide),
    by decide, by decide, by decide, by decide⟩

/-! ## The bounded pool of goroutines -/

theorem perm_cons_removeFirst {α : Type} [DecidableEq α] (a : α) (l : List α) (h : a ∈ l) :
    l.Perm (a :: removeFirst a l) := by
  induction l with
  | nil => exact absurd h (List.not_mem_nil _)
  | cons b l ih =>
    unfold removeFirst
    by_cases hb : b = a
    · rw [if_pos hb, hb]
    · rw [if_neg hb]
      have hl : a ∈ l := by
        rcases List.mem_cons.mp h with h1 | h1
        · exact absurd h1.symm hb
        · exact h1
      exact (List.Perm.cons b (ih hl)).trans (List.Perm.swap a b _)

theorem length_removeFirst {α : Type} [DecidableEq α] (a : α) (l : List α) (h : a ∈ l) :
    (removeFirst a l).length + 1 = l.length := by
  have := (perm_cons_removeFirst a l h).length_eq
  simp at this
  omega

theorem coe_removeFirst_item (l : List Path) (a : Path) (h : a ∈ l) :
    (↑l : Multiset Path) = {a} + ↑(removeFirst a l) := by
  rw [Multiset.singleton_add, Multiset.cons_coe]
  exact Multiset.coe_eq_coe.mpr (perm_cons_removeFirst a l h)

theorem coe_removeFirst_fst (l : List (Path × Bool)) (a : Path × Bool) (h : a ∈ l) :
    (↑(l.map Prod.fst) : Multiset Path) = {a.1} + ↑((removeFirst a l).map Prod.fst) := by
  rw [Multiset.singleton_add, Multiset.cons_coe]
  have hp := (perm_cons_removeFirst a l h).map Prod.fst
  rw [List.map_cons] at hp
  exact Multiset.coe_eq_coe.mpr hp

theorem coe_append_item (l : List Path) (a : Path) :
    (↑(l ++ [a]) : Multiset Path) = {a} + ↑l := by
  rw [Multiset.singleton_add, Multiset.cons_coe]
  exact Multiset.coe_eq_coe.mpr (List.perm_append_singleton a l)

theorem coe_append_fst (l : List (Path × Bool)) (a : Path × Bool) :
    (↑((l ++ [a]).map Prod.fst) : Multiset Path) = {a.1} + ↑(l.map Prod.fst) := by
  rw [List.map_append, List.map_singleton]
  exact coe_append_item _ _

theorem Pool.start_inv (capacity : Nat) (items : List Path) :
    Pool.Inv capacity items (Pool.start items) where
  tokens := rfl
  bound := Nat.zero_le _
  counter := rfl
  items := by simp [Pool.start, Driver.item]
  drained := by simp [Pool.start]
  ended := by simp [Pool.start]

theorem Pool.step_drive (capacity : Nat) (items : List Path) (s t : Pool)
    (hi : Pool.Inv capacity items s) (h : s.step capacity .drive = some t) :
    Pool.Inv capacity items t ∧ t.rank + 1 = s.rank := by
  obtain ⟨pending, driver, sem, wg, running, returned, released, finished⟩ := s
  obtain ⟨ht, hb, hc, hitems, hdr, hend⟩ := hi
  dsimp only at ht hb hc hitems hdr hend
  simp only [Pool.step] at h
  cases driver with
  | ranging =>
    cases pending with
    | nil =>
      simp only [Option.some.injEq] at h
      subst h
      refine ⟨⟨?_, ?_, ?_, ?_, ?_, ?_⟩, ?_⟩
      · simpa [Driver.token] using ht
      · exact hb
      · simpa [Driver.item] using hc
      · simpa [Driver.item] using hitems
      · intro _
        rfl
      · intro hcont
        simp at hcont
      · simp only [Pool.rank, Driver.rank]
        omega
    | cons x rest =>
      simp only [Option.some.injEq] at h
      subst h
      refine ⟨⟨?_, ?_, ?_, ?_, ?_, ?_⟩, ?_⟩
      · simpa [Driver.token] using ht
      · exact hb
      · simp only [Driver.item, List.length_nil, List.length_singleton] at hc ⊢
        omega
      · simp only [Driver.item] at hitems ⊢
        rw [← hitems, ← Multiset.cons_coe x rest, ← Multiset.singleton_add,
          Multiset.coe_singleton, Multiset.coe_nil]
        abel
      · intro hw
        simp at hw
      · intro hcont
        simp at hcont
      · simp only [Pool.rank, Driver.rank, List.length_cons]
        omega
  | added x =>
    by_cases hfree : sem < capacity
    · simp only [hfree, if_true, Option.some.injEq] at h
      subst h
      refine ⟨⟨?_, ?_, ?_, ?_, ?_, ?_⟩, ?_⟩
      · simp only [Driver.token] at ht ⊢
        omega
      · exact hfree
      · simpa [Driver.item] using hc
      · simpa [Driver.item] using hitems
      · intro hw
        simp at hw
      · intro hcont
        simp at hcont
      · simp only [Pool.rank, Driver.rank]
        omega
    · simp [hfree] at h
  | acquired x =>
    simp only [Option.some.injEq] at h
    subst h
    refine ⟨⟨?_, ?_, ?_, ?_, ?_, ?_⟩, ?_⟩
    · simp only [Driver.token, List.length_append, List.length_singleton] at ht ⊢
      omega
    · exact hb
    · simp only [Driver.item, List.length_append, List.length_singleton, List.length_nil]
        at hc ⊢
      omega
    · simp only [Driver.item] at hitems ⊢
      rw [coe_append_item, ← hitems]
      simp only [Multiset.coe_nil, add_zero, Multiset.coe_singleton]
      abel
    · intro hw
      simp at hw
    · intro hcont
      simp at hcont
    · simp only [Pool.rank, Driver.rank, List.length_append, List.length_singleton]
      omega
  | waiting =>
    by_cases hz : wg = 0
    · simp only [hz, if_true, Option.some.injEq] at h
      subst h
      refine ⟨⟨?_, ?_, ?_, ?_, ?_, ?_⟩, ?_⟩
      · simpa [Driver.token] using ht
      · exact hb
      · simp only [Driver.item, List.length_nil] at hc ⊢
        omega
      · simpa [Driver.item] using hitems
      · intro _
        exact hdr (Or.inl rfl)
      · intro _
        simp only [Driver.item, List.length_nil] at hc
        have h1 : running.length = 0 := by omega
        have h2 : returned.length = 0 := by omega
        have h3 : released.length = 0 := by omega
        exact ⟨List.length_eq_zero.mp h1, List.length_eq_zero.mp h2,
          List.length_eq_zero.mp h3⟩
      · simp only [Pool.rank, Driver.rank]
        omega
    · simp [hz] at h
  | continued => simp at h

theorem Driver.token_le_item (d : Driver) : d.token ≤ d.item.length := by
  cases d <;> simp [Driver.token, Driver.item]

theorem Pool.step_bodyReturns (capacity : Nat) (items : List Path) (s t : Pool)
    (item : Path) (ok : Bool)
    (hi : Pool.Inv capacity items s) (h : s.step capacity (.bodyReturns item ok) = some t) :
    Pool.Inv capacity items t ∧ t.rank + 1 = s.rank := by
  obtain ⟨pending, driver, sem, wg, running, returned, released, finished⟩ := s
  obtain ⟨ht, hb, hc, hitems, hdr, hend⟩ := hi
  dsimp only at ht hb hc hitems hdr hend
  simp only [Pool.step] at h
  by_cases hmem : item ∈ running
  · simp only [hmem, if_true, Option.some.injEq] at h
    subst h
    have hlen := length_removeFirst item running hmem
    refine ⟨⟨?_, ?_, ?_, ?_, ?_, ?_⟩, ?_⟩
    · simp only [List.length_append, List.length_singleton]
      omega
    · exact hb
    · simp only [List.length_append, List.length_singleton]
      omega
    · dsimp only
      rw [coe_append_fst, ← hitems, coe_removeFirst_item running item hmem]
      abel
    · exact hdr
    · intro hcont
      have := (hend hcont).1
      rw [this] at hmem
      exact absurd hmem (List.not_mem_nil _)
    · simp only [Pool.rank, List.length_append, List.length_singleton]
      omega
  · simp [hmem] at h

theorem Pool.step_release (capacity : Nat) (items : List Path) (s t : Pool)
    (item : Path) (ok : Bool)
    (hi : Pool.Inv capacity items s) (h : s.step capacity (.release item ok) = some t) :
    Pool.Inv capacity items t ∧ t.rank + 1 = s.rank := by
  obtain ⟨pending, driver, sem, wg, running, returned, released, finished⟩ := s
  obtain ⟨ht, hb, hc, hitems, hdr, hend⟩ := hi
  dsimp only at ht hb hc hitems hdr hend
  simp only [Pool.step] at h
  by_cases hmem : (item, ok) ∈ returned ∧ 0 < sem
  · simp only [hmem, and_self, if_true, Option.some.injEq] at h
    subst h
    have hlen := length_removeFirst (item, ok) returned hmem.1
    refine ⟨⟨?_, ?_, ?_, ?_, ?_, ?_⟩, ?_⟩
    · dsimp only
      omega
    · dsimp only
      omega
    · simp only [List.length_append, List.length_singleton]
      omega
    · dsimp only
      rw [coe_append_fst, ← hitems, coe_removeFirst_fst returned (item, ok) hmem.1]
      abel
    · exact hdr
    · intro hcont
      have := (hend hcont).2.1
      rw [this] at hmem
      exact absurd hmem.1 (List.not_mem_nil _)
    · simp only [Pool.rank, List.length_append, List.length_singleton]
      omega
  · simp [hmem] at h

theorem Pool.step_done (capacity : Nat) (items : List Path) (s t : Pool)
    (item : Path) (ok : Bool)
    (hi : Pool.Inv capacity items s) (h : s.step capacity (.done item ok) = some t) :
    Pool.Inv capacity items t ∧ t.rank + 1 = s.rank := by
  obtain ⟨pending, driver, sem, wg, running, returned, released, finished⟩ := s
  obtain ⟨ht, hb, hc, hitems, hdr, hend⟩ := hi
  dsimp only at ht hb hc hitems hdr hend
  simp only [Pool.step] at h
  by_cases hmem : (item, ok) ∈ released ∧ 0 < wg
  · simp only [hmem, and_self, if_true, Option.some.injEq] at h
    subst h
    have hlen := length_removeFirst (item, ok) released hmem.1
    refine ⟨⟨?_, ?_, ?_, ?_, ?_, ?_⟩, ?_⟩
    · exact ht
    · exact hb
    · dsimp only
      omega
    · dsimp only
      rw [coe_append_fst, ← hitems, coe_removeFirst_fst released (item, ok) hmem.1]
      abel
    · exact hdr
    · intro hcont
      have := (hend hcont).2.2
      rw [this] at hmem
      exact absurd hmem.1 (List.not_mem_nil _)
    · simp only [Pool.rank]
      omega
  · simp [hmem] at h

theorem Pool.step_inv (capacity : Nat) (items : List Path) (s t : Pool) (e : Event)
    (hi : Pool.Inv capacity items s) (h : s.step capacity e = some t) :
    Pool.Inv capacity items t ∧ t.rank + 1 = s.rank := by
  cases e with
  | drive => exact Pool.step_drive capacity items s t hi h
  | bodyReturns item ok => exact Pool.step_bodyReturns capacity items s t item ok hi h
  | release item ok => exact Pool.step_release capacity items s t item ok hi h
  | done item ok => exact Pool.step_done capacity items s t item ok hi h

theorem Pool.run_inv (capacity : Nat) (items : List Path) (events : List Event)
    (s t : Pool) (hi : Pool.Inv capacity items s) (h : Pool.run capacity s events = some t) :
    Pool.Inv capacity items t ∧ t.rank + events.length = s.rank := by
  induction events generalizing s with
  | nil =>
    simp only [Pool.run, Option.some.injEq] at h
    subst h
    exact ⟨hi, rfl⟩
  | cons e es ih =>
    unfold Pool.run at h
    cases hs : s.step capacity e with
    | none => simp [hs] at h
    | some s1 =>
      simp only [hs] at h
      obtain ⟨hi1, hr1⟩ := Pool.step_inv capacity items s s1 e hi hs
      obtain ⟨hi2, hr2⟩ := ih s1 hi1 h
      refine ⟨hi2, ?_⟩
      simp only [List.length_cons]
      omega

theorem Pool.progress (capacity : Nat) (hcap : 0 < capacity) (items : List Path) (s : Pool)
    (hi : Pool.Inv capacity items s) (hnot : s.driver ≠ .continued) :
    ∃ e, (s.step capacity e).isSome = true := by
  obtain ⟨pending, driver, sem, wg, running, returned, released, finished⟩ := s
  obtain ⟨ht, hb, hc, hitems, hdr, hend⟩ := hi
  dsimp only at ht hb hc hitems hdr hend hnot
  have hworker : (running ≠ [] ∨ returned ≠ [] ∨ released ≠ []) →
      ∃ e, (Pool.step capacity ⟨pending, driver, sem, wg, running, returned, released,
        finished⟩ e).isSome = true := by
    intro hw
    cases running with
    | cons x xs => exact ⟨.bodyReturns x true, by simp [Pool.step]⟩
    | nil =>
      cases returned with
      | cons r rs =>
        refine ⟨.release r.1 r.2, ?_⟩
        have hpos : 0 < sem := by
          simp only [List.length_cons] at ht
          omega
        simp [Pool.step, hpos]
      | nil =>
        cases released with
        | cons r rs =>
          refine ⟨.done r.1 r.2, ?_⟩
          have hpos : 0 < wg := by
            simp only [List.length_cons] at hc
            omega
          simp [Pool.step, hpos]
        | nil => simp at hw
  cases driver with
  | ranging =>
    refine ⟨.drive, ?_⟩
    cases pending <;> simp [Pool.step]
  | added x =>
    by_cases hfree : sem < capacity
    · exact ⟨.drive, by simp [Pool.step, hfree]⟩
    · apply hworker
      simp only [Driver.token] at ht
      by_contra hall
      simp only [not_or, not_not] at hall
      rw [hall.1, hall.2.1] at ht
      simp only [List.length_nil] at ht
      omega
  | acquired x => exact ⟨.drive, by simp [Pool.step]⟩
  | waiting =>
    by_cases hz : wg = 0
    · exact ⟨.drive, by simp [Pool.step, hz]⟩
    · apply hworker
      simp only [Driver.item, List.length_nil] at hc
      by_contra hall
      simp only [not_or, not_not] at hall
      rw [hall.1, hall.2.1, hall.2.2] at hc
      simp only [List.length_nil] at hc
      omega
  | continued => exact absurd rfl hnot

/-- C12. In every state of every run of the pool with a semaphore of capacity
`N` above 0 (4 in `main`, 64 in `compileTestFiles`), at most `N` executions
are in flight. No run is longer than `6 * n + 2` steps for `n` items, and
some step is possible in every state until the driver is past `wg.Wait()`:
a run that goes on until no step is possible ends there. The driver is past
`wg.Wait()` only when every item has been dispatched and its goroutine has
ended, whether its execution failed or not. -/
theorem pool_bounded_and_complete (capacity : Nat) (hcap : 0 < capacity)
    (items : List Path) (events : List Event) (s : Pool)
    (hrun : Pool.run capacity (Pool.start items) events = some s) :
    s.running.length ≤ capacity ∧
    s.semaphore ≤ capacity ∧
    events.length ≤ 6 * items.length + 2 ∧
    (s.driver ≠ .continued → ∃ e, (s.step capacity e).isSome = true) ∧
    ((∀ e, s.step capacity e = none) → s.driver = .continued) ∧
    (s.driver = .continued →
      s.pending = [] ∧ s.running = [] ∧ s.returned = [] ∧ s.released = [] ∧
      (s.finished.map Prod.fst).Perm items ∧ events.length = 6 * items.length + 2) := by
  obtain ⟨hi, hrank⟩ := Pool.run_inv capacity items events (Pool.start items) s
    (Pool.start_inv capacity items) hrun
  have hstart : (Pool.start items).rank = 6 * items.length + 2 := by
    simp [Pool.start, Pool.rank, Driver.rank]
  rw [hstart] at hrank
  have hprog := Pool.progress capacity hcap items s hi
  refine ⟨?_, hi.bound, by omega, hprog, ?_, ?_⟩
  · have := hi.tokens
    have := hi.bound
    omega
  · intro hstuck
    by_contra hnot
    obtain ⟨e, he⟩ := hprog hnot
    rw [hstuck e] at he
    exact absurd he (by simp)
  · intro hcont
    obtain ⟨h1, h2, h3⟩ := hi.ended hcont
    have hp := hi.drained (Or.inr hcont)
    have hitems := hi.items
    rw [h1, h2, h3, hp, hcont] at hitems
    simp only [List.map_nil, Multiset.coe_nil, add_zero, Driver.item] at hitems
    refine ⟨hp, h1, h2, h3, Multiset.coe_eq_coe.mp hitems, ?_⟩
    have hr : s.rank = 0 := by
      simp [Pool.rank, h1, h2, h3, hp, hcont, Driver.rank]
    omega

theorem pool_bounded_and_complete_witness :
    (∃ s, Pool.run runSemaphoreCapacity (Pool.start poolItems) blockedSchedule = some s ∧
      s.running.length = 4 ∧ s.running.length ≤ runSemaphoreCapacity ∧
      s.step runSemaphoreCapacity .drive = none) ∧
    (∃ s, Pool.run runSemaphoreCapacity (Pool.start poolItems) fullSchedule = some s ∧
      s.driver = .continued ∧ (s.finished.map Prod.fst).Perm poolItems) := by
  have hb : Pool.run runSemaphoreCapacity (Pool.start poolItems) blockedSchedule =
      some ⟨[], .added "s5".toList, 4, 5,
        ["s1".toList, "s2".toList, "s3".toList, "s4".toList], [], [], []⟩ := by decide
  have hf : Pool.run runSemaphoreCapacity (Pool.start poolItems) fullSchedule =
      some ⟨[], .continued, 0, 0, [], [], [],
        [("s1".toList, false), ("s2".toList, true), ("s3".toList, true),
          ("s4".toList, true), ("s5".toList, true)]⟩ := by decide
  refine ⟨⟨_, hb, rfl, ?_, by decide⟩, ⟨_, hf, rfl, ?_⟩⟩
  · exact (pool_bounded_and_complete runSemaphoreCapacity (by decide) poolItems
      blockedSchedule _ hb).1
  · exact (pool_bounded_and_complete runSemaphoreCapacity (by decide) poolItems
      fullSchedule _ hf).2.2.2.2.2 rfl |>.2.2.2.2.1
end CoverageReporter
